import Mathlib

/-!
Verification development for a small C-to-Python transpiler.

The program under study is `src/transpiler.py`: a `pycparser`-based
`NodeVisitor` subclass `CtoPythonTranspiler` holding mutable emission state
(`lines`, `indent_level`, `switch_var`, `case_seen`), plus a wrapper
`convert_c_to_python` that strips preprocessor-directive lines, parses the
remaining text with the external `pycparser` parser, runs the visitor and
joins the emitted lines.

The embedding below models:
  * the AST node shapes the visitor inspects (as a closed mutual inductive);
  * the visitor as an explicit state-passing function `visit` returning
    `Except String (Option String × St)` — a Python method either returns a
    value (`.ok`) or raises an uncaught exception (`.error`, carrying a
    message resembling the Python exception);
  * the textual preprocessor-stripping pass (`splitlines` / `strip` /
    `startswith` / `join`) character by character;
  * `convert_c_to_python`, parameterized by an abstract parser
    (`pycparser` is an external black box: the spec treats `parse` as
    `text -> AST or parse failure`); only parse failures are caught, any
    exception escaping the visitor propagates to the caller.
-/

/-- Emission state of the `CtoPythonTranspiler` instance: the fields set up
in `__init__`.  `indent_level` is a Python `int`, modeled as `Int`;
`switch_var` is `None` or a string, modeled as `Option String`. -/
structure St where
  lines : List String
  indent_level : Int
  switch_var : Option String
  case_seen : Bool
  deriving Repr, DecidableEq

/-- Python string repetition `s * n` (empty for a non-positive count). -/
def pyRepeat (s : String) (n : Int) : String :=
  String.join (List.replicate n.toNat s)

/-- Rendering of a Python value that is either a string or `None` inside an
f-string: `None` prints as `"None"`. -/
def pyStr : Option String → String
  | Option.none => "None"
  | Option.some s => s

/-- `self.lines.append(line)`. -/
def emit (st : St) (line : String) : St :=
  { st with lines := st.lines ++ [line] }

/-- `self.indent_level += 1`. -/
def incIndent (st : St) : St :=
  { st with indent_level := st.indent_level + 1 }

/-- `self.indent_level -= 1`. -/
def decIndent (st : St) : St :=
  { st with indent_level := st.indent_level - 1 }

/-- `def indent(self): return '    ' * self.indent_level`. -/
def indent (st : St) : String :=
  pyRepeat "    " st.indent_level

mutual
/-- The `pycparser` AST node shapes consumed by the visitor.  A node kind the
transpiler defines no `visit_` method for is collapsed into `Other kind`
(the dispatcher sends those to `generic_visit`, which only consults
`type(node).__name__`, here the `kind` string).  A `Decl` node is split by
the branch its `type` field sends it through in `visit_Decl`:
`DeclVar` (a `TypeDecl` type, carrying `init`), `DeclArr` (an `ArrayDecl`
type, carrying the dimension expression `dim`), and `DeclOther` (any other
type object, e.g. `PtrDecl` for `int *p` or `FuncDecl` for a prototype).
A `FuncDef` is flattened to what `visit_FuncDef` reads: `node.decl.name`
and the parameter names `param.name` of `node.decl.type.args` (which is
`None` for an empty C parameter list).  `Assignment` carries its `op`
field, which `visit_Assignment` never reads. -/
inductive Node where
  | FileAST (ext : NodeList)
  | FuncDef (name : String) (params : Option (List String)) (body : Node)
  | Compound (items : NodeList)
  | DeclVar (name : String) (init : OptNode)
  | DeclArr (name : String) (dim : Node)
  | DeclOther (name : String)
  | Assignment (op : String) (lvalue : Node) (rvalue : Node)
  | Return (expr : OptNode)
  | If (cond : Node) (iftrue : Node) (iffalse : OptNode)
  | While (cond : Node) (stmt : Node)
  | For (init : OptNode) (cond : OptNode) (next : OptNode) (stmt : Node)
  | ArrayRef (name : Node) (subscript : Node)
  | Switch (cond : Node) (stmt : Node)
  | Case (expr : Node) (stmts : NodeList)
  | Default (stmts : NodeList)
  | FuncCall (name : Node) (args : OptNodeList)
  | ID (name : String)
  | Constant (value : String)
  | BinaryOp (left : Node) (op : String) (right : Node)
  | UnaryOp (op : String) (expr : Node)
  | Other (kind : String)
/-- A Python list of nodes (spelled as its own inductive so that the visitor
can recurse structurally through it). -/
inductive NodeList where
  | nil
  | cons (head : Node) (tail : NodeList)
/-- A node-or-`None` field. -/
inductive OptNode where
  | none
  | some (node : Node)
/-- An argument list that may be `None` (`node.args` of a call). -/
inductive OptNodeList where
  | none
  | some (exprs : NodeList)
end

/-- `_get_func_args`: `""` when `args` is `None`, otherwise the parameter
names joined by `", "`. -/
def get_func_args : Option (List String) → String
  | Option.none => ""
  | Option.some ps => String.intercalate ", " ps

/-- Python's `", ".join(items)` succeeds only when every item is a string;
an item that is `None` raises `TypeError`.  `allSome` extracts the strings
when the join would succeed. -/
def allSome : List (Option String) → Option (List String)
  | [] => Option.some []
  | Option.some s :: rest => (allSome rest).map (fun l => s :: l)
  | Option.none :: _ => Option.none

/-- Result of one visitor method call: either a raised exception (`.error`)
or the returned value together with the updated instance state.  Methods
that fall off the end return Python `None`, modeled `Option.none`. -/
abbrev VisitRes := Except String (Option String × St)

/-- The statement-appending step of the loops in `visit_Compound`,
`visit_Case` and `visit_Default`: when the value returned by visiting a
statement is truthy (Python `if code:` — false for `None` and for `""`),
append it at the current indentation. -/
def appendTruthy (st : St) (code : Option String) : St :=
  match code with
  | Option.none => st
  | Option.some c => if c = "" then st else emit st (indent st ++ c)

/-- `self.switch_var = var; self.case_seen = False` on entry to
`visit_Switch`. -/
def setSwitchCtx (st : St) (v : Option String) : St :=
  { st with switch_var := v, case_seen := false }

/-- `self.switch_var = None` on exit from `visit_Switch`. -/
def clearSwitchVar (st : St) : St :=
  { st with switch_var := Option.none }

/-- `self.case_seen = True` in `visit_Case`. -/
def setCaseSeen (st : St) : St :=
  { st with case_seen := true }

mutual
/-- The dispatcher `NodeVisitor.visit` together with every `visit_*` method
of `CtoPythonTranspiler`, one match arm per method, in explicit
state-passing style.  Raised exceptions (attribute errors in `visit_For`,
a `TypeError` from joining a `None` argument) become `.error`. -/
def visit : Node → St → VisitRes
  | .FileAST ext, st =>
    -- visit_FileAST: `for ext in node.ext: self.visit(ext)`
    match visitTop ext st with
    | .error e => .error e
    | .ok st1 => .ok (Option.none, st1)
  | .FuncDef name params body, st =>
    -- visit_FuncDef
    let st1 := emit st (indent st ++ "def " ++ name ++ "(" ++ get_func_args params ++ "):")
    let st2 := incIndent st1
    match visit body st2 with
    | .error e => .error e
    | .ok (_, st3) => .ok (Option.none, decIndent st3)
  | .Compound items, st =>
    -- visit_Compound: `for stmt in node.block_items or []`
    match visitStmts items st with
    | .error e => .error e
    | .ok st1 => .ok (Option.none, st1)
  | .DeclVar name .none, st =>
    -- visit_Decl, `isinstance(node.type, c_ast.TypeDecl)` branch, no
    -- initializer: `value = "None"`
    .ok (Option.some (name ++ " = " ++ "None"), st)
  | .DeclVar name (.some e), st =>
    -- visit_Decl, TypeDecl branch with an initializer
    match visit e st with
    | .error ex => .error ex
    | .ok (v, st1) => .ok (Option.some (name ++ " = " ++ pyStr v), st1)
  | .DeclArr name dim, st =>
    -- visit_Decl, `isinstance(node.type, c_ast.ArrayDecl)` branch
    match visit dim st with
    | .error ex => .error ex
    | .ok (v, st1) => .ok (Option.some (name ++ " = [None] * " ++ pyStr v), st1)
  | .DeclOther _, st =>
    -- visit_Decl, fallthrough `return ""`
    .ok (Option.some "", st)
  | .Assignment _ lv rv, st =>
    -- visit_Assignment (node.op is never read)
    match visit lv st with
    | .error ex => .error ex
    | .ok (l, st1) =>
      match visit rv st1 with
      | .error ex => .error ex
      | .ok (r, st2) => .ok (Option.some (pyStr l ++ " = " ++ pyStr r), st2)
  | .Return expr, st =>
    -- visit_Return
    match visitOpt expr st with
    | .error ex => .error ex
    | .ok (v, st1) => .ok (Option.some ("return " ++ pyStr v), st1)
  | .If cond iftrue .none, st =>
    -- visit_If without an else branch (`if node.iffalse:` is false)
    match visit cond st with
    | .error ex => .error ex
    | .ok (c, st1) =>
      let st2 := incIndent (emit st1 (indent st1 ++ "if " ++ pyStr c ++ ":"))
      match visit iftrue st2 with
      | .error ex => .error ex
      | .ok (_, st3) => .ok (Option.none, decIndent st3)
  | .If cond iftrue (.some e), st =>
    -- visit_If with an else branch
    match visit cond st with
    | .error ex => .error ex
    | .ok (c, st1) =>
      let st2 := incIndent (emit st1 (indent st1 ++ "if " ++ pyStr c ++ ":"))
      match visit iftrue st2 with
      | .error ex => .error ex
      | .ok (_, st3) =>
        let st4 := decIndent st3
        let st5 := incIndent (emit st4 (indent st4 ++ "else:"))
        match visit e st5 with
        | .error ex => .error ex
        | .ok (_, st6) => .ok (Option.none, decIndent st6)
  | .While cond stmt, st =>
    -- visit_While
    match visit cond st with
    | .error ex => .error ex
    | .ok (c, st1) =>
      let st2 := incIndent (emit st1 (indent st1 ++ "while " ++ pyStr c ++ ":"))
      match visit stmt st2 with
      | .error ex => .error ex
      | .ok (_, st3) => .ok (Option.none, decIndent st3)
  | .For (.some (.Assignment _ lv rv)) (.some (.BinaryOp _ _ r)) _ stmt, st =>
    -- visit_For, canonical shape: node.init.lvalue / node.init.rvalue /
    -- node.cond.right all resolve; node.next is never read.
    match visit lv st with
    | .error ex => .error ex
    | .ok (var, st1) =>
      match visit rv st1 with
      | .error ex => .error ex
      | .ok (start, st2) =>
        match visit r st2 with
        | .error ex => .error ex
        | .ok (stop, st3) =>
          let st4 := incIndent (emit st3 (indent st3 ++ "for " ++ pyStr var ++
            " in range(" ++ pyStr start ++ ", " ++ pyStr stop ++ "):"))
          match visit stmt st4 with
          | .error ex => .error ex
          | .ok (_, st5) => .ok (Option.none, decIndent st5)
  | .For (.some (.Assignment _ lv rv)) _ _ _, st =>
    -- visit_For with an initializer assignment but a condition lacking a
    -- `right` attribute (only BinaryOp nodes have one): following the
    -- source's attribute-access order, init.lvalue and init.rvalue are
    -- visited first, then reading node.cond.right raises AttributeError,
    -- which no caller catches.
    match visit lv st with
    | .error ex => .error ex
    | .ok (_, st1) =>
      match visit rv st1 with
      | .error ex => .error ex
      | .ok (_, _) => .error "AttributeError: node.cond has no attribute right"
  | .For _ _ _ _, _ =>
    -- node.init is None or lacks an lvalue attribute (e.g. an empty
    -- initializer clause or a C99 declaration initializer)
    .error "AttributeError: node.init has no attribute lvalue"
  | .ArrayRef name subscript, st =>
    -- visit_ArrayRef
    match visit name st with
    | .error ex => .error ex
    | .ok (n, st1) =>
      match visit subscript st1 with
      | .error ex => .error ex
      | .ok (s, st2) => .ok (Option.some (pyStr n ++ "[" ++ pyStr s ++ "]"), st2)
  | .Switch cond stmt, st =>
    -- visit_Switch
    match visit cond st with
    | .error ex => .error ex
    | .ok (v, st1) =>
      let st2 := emit st1 (indent st1 ++ "# switch(" ++ pyStr v ++ ") equivalent")
      let st3 := setSwitchCtx st2 v
      match visit stmt st3 with
      | .error ex => .error ex
      | .ok (_, st4) => .ok (Option.none, clearSwitchVar st4)
  | .Case expr stmts, st =>
    -- visit_Case
    match visit expr st with
    | .error ex => .error ex
    | .ok (v, st1) =>
      let pfx := if st1.case_seen = false then "if" else "elif"
      let st2 := emit st1 (indent st1 ++ pfx ++ " " ++ pyStr st1.switch_var ++
        " == " ++ pyStr v ++ ":")
      let st3 := incIndent (setCaseSeen st2)
      match visitStmts stmts st3 with
      | .error ex => .error ex
      | .ok st4 => .ok (Option.none, decIndent st4)
  | .Default stmts, st =>
    -- visit_Default: its statement loop is the one of visit_Compound minus
    -- the `isinstance(code, list)` branch; no visit_* method ever returns a
    -- list, so both loops behave as visitStmts.
    let st1 := incIndent (emit st (indent st ++ "else:"))
    match visitStmts stmts st1 with
    | .error ex => .error ex
    | .ok st2 => .ok (Option.none, decIndent st2)
  | .FuncCall name .none, st =>
    -- visit_FuncCall with `node.args` None: `args = ""`
    match visit name st with
    | .error ex => .error ex
    | .ok (fn, st1) =>
      if fn = Option.some "printf" then .ok (Option.some "print()", st1)
      else .ok (Option.some (pyStr fn ++ "()"), st1)
  | .FuncCall name (.some exprs), st =>
    -- visit_FuncCall with an argument list: visit every argument, then
    -- `", ".join(...)` (a TypeError if some visit returned None)
    match visit name st with
    | .error ex => .error ex
    | .ok (fn, st1) =>
      match visitExprList exprs st1 with
      | .error ex => .error ex
      | .ok (vs, st2) =>
        match allSome vs with
        | Option.none => .error "TypeError: sequence item: expected str instance"
        | Option.some ss =>
          let argsStr := String.intercalate ", " ss
          if fn = Option.some "printf" then
            .ok (Option.some ("print(" ++ argsStr ++ ")"), st2)
          else
            .ok (Option.some (pyStr fn ++ "(" ++ argsStr ++ ")"), st2)
  | .ID name, st => .ok (Option.some name, st)
  | .Constant value, st => .ok (Option.some value, st)
  | .BinaryOp left op right, st =>
    -- visit_BinaryOp
    match visit left st with
    | .error ex => .error ex
    | .ok (l, st1) =>
      match visit right st1 with
      | .error ex => .error ex
      | .ok (r, st2) => .ok (Option.some (pyStr l ++ " " ++ op ++ " " ++ pyStr r), st2)
  | .UnaryOp op expr, st =>
    -- visit_UnaryOp
    match visit expr st with
    | .error ex => .error ex
    | .ok (v, st1) => .ok (Option.some (op ++ pyStr v), st1)
  | .Other kind, st =>
    -- generic_visit
    .ok (Option.some ("# [Unhandled: " ++ kind ++ "]"), st)

/-- The loop of `visit_FileAST`: visit each top-level node, return values
discarded. -/
def visitTop : NodeList → St → Except String St
  | .nil, st => .ok st
  | .cons n rest, st =>
    match visit n st with
    | .error e => .error e
    | .ok (_, st1) => visitTop rest st1

/-- The statement loop shared by `visit_Compound`, `visit_Case` and
`visit_Default`: visit the statement; when the returned value is truthy
(a non-empty string — Python `if code:` is false for `None` and `""`),
append it at the current indentation.  The `isinstance(code, list)` branch
of the source is unreachable (no visit method returns a list) and is
omitted. -/
def visitStmts : NodeList → St → Except String St
  | .nil, st => .ok st
  | .cons s rest, st =>
    match visit s st with
    | .error e => .error e
    | .ok (code, st1) => visitStmts rest (appendTruthy st1 code)
/-- The argument list comprehension of `visit_FuncCall`: visit every
argument, collecting the returned values (join and its possible `TypeError`
happen afterwards, in `visit`). -/
def visitExprList : NodeList → St → Except String (List (Option String) × St)
  | .nil, st => .ok ([], st)
  | .cons e rest, st =>
    match visit e st with
    | .error ex => .error ex
    | .ok (v, st1) =>
      match visitExprList rest st1 with
      | .error ex => .error ex
      | .ok (vs, st2) => .ok (v :: vs, st2)
/-- `self.visit(x)` where `x` may be Python `None`: the dispatcher then
looks up `visit_NoneType`, finds none, and `generic_visit` returns
`"# [Unhandled: NoneType]"`. -/
def visitOpt : OptNode → St → VisitRes
  | .none, st => .ok (Option.some "# [Unhandled: NoneType]", st)
  | .some e, st => visit e st
end

/-- The fresh transpiler state built by `CtoPythonTranspiler.__init__`. -/
def initSt : St := ⟨[], 0, Option.none, false⟩

/-! ## The preprocessing pass of `convert_c_to_python`

`c_code = '\n'.join(line for line in c_code.splitlines()
                    if not line.strip().startswith('#'))`
modeled character by character: Python's `str.splitlines` boundaries, the
default whitespace set of `str.strip`, `str.startswith`, `str.join`. -/

/-- The characters Python's default `str.strip()` removes. -/
def isPySpace (c : Char) : Bool :=
  c = ' ' || c = '\t' || c = '\n' || c = '\r' || c = '\x0b' || c = '\x0c'

/-- Python `str.strip()` (default whitespace, ASCII part). -/
def pyStrip (s : String) : String :=
  String.mk (((s.data.dropWhile isPySpace).reverse.dropWhile isPySpace).reverse)

/-- The line-boundary characters of Python's `str.splitlines` (besides the
two-character boundary `"\r\n"`). -/
def isLineBreak (c : Char) : Bool :=
  c = '\n' || c = '\r' || c = '\x0b' || c = '\x0c' || c = '\x1c' ||
  c = '\x1d' || c = '\x1e' || c = '\x85' || c = '\u2028' || c = '\u2029'

/-- Worker for `str.splitlines`: `acc` holds the current line reversed, and
`afterCR` records that the previous character was a `'\r'` that already
closed a line, so that an immediately following `'\n'` is part of the same
`"\r\n"` boundary and is swallowed rather than closing a second line. -/
def splitLinesCR : List Char → List Char → Bool → List String
  | [], acc, _ => if acc = [] then [] else [String.mk acc.reverse]
  | c :: rest, acc, afterCR =>
    if afterCR && c = '\n' then splitLinesCR rest acc false
    else if c = '\r' then String.mk acc.reverse :: splitLinesCR rest [] true
    else if isLineBreak c then String.mk acc.reverse :: splitLinesCR rest [] false
    else splitLinesCR rest (c :: acc) false

/-- Python `str.splitlines()` (no trailing empty line for a trailing
terminator). -/
def pySplitLines (s : String) : List String :=
  splitLinesCR s.data [] false

/-- Python `'\n'.join(lines)`. -/
def pyJoinNL : List String → String
  | [] => ""
  | [l] => l
  | l :: rest => l ++ "\n" ++ pyJoinNL rest

/-- `str.startswith('#')` for the one-character needle: the first character
is `'#'`. -/
def startsWithHash (s : String) : Bool :=
  match s.data with
  | '#' :: _ => true
  | _ => false

/-- The filter of the generator expression: keep a line unless its stripped
form starts with `#`. -/
def keepLine (l : String) : Bool :=
  !startsWithHash (pyStrip l)

/-- The whole preprocessing pass. -/
def stripDirectives (s : String) : String :=
  pyJoinNL ((pySplitLines s).filter keepLine)

/-! ## The entry point -/

/-- Outcome of the external `pycparser` front end (out of scope of this
repository; the spec treats it as a black box `parse(text) -> AST` or a
`ParseError` carrying a diagnostic message). -/
inductive ParseResult where
  | ok (ast : Node)
  | err (msg : String)

/-- `convert_c_to_python`, parameterized by the external parser: strip
directive lines, parse, visit, join the emitted lines with newlines.  Only
`plyparser.ParseError` is caught (yielding the two comment lines); an
exception raised by the visitor propagates to the caller, modeled as
`.error`. -/
def convert_c_to_python (parse : String → ParseResult) (c_code : String) :
    Except String String :=
  let stripped := stripDirectives c_code
  match parse stripped with
  | .ok ast =>
    match visit ast initSt with
    | .ok (_, st) => .ok (String.intercalate "\n" st.lines)
    | .error e => .error e
  | .err e => .ok ("# Error: Could not parse C code.\n# Details: " ++ e)

/-! ## Auxiliary notions used to state the claims -/

/-- The pair of per-switch context fields. -/
def svcs (s : St) : Option String × Bool :=
  (s.switch_var, s.case_seen)

/-- `s` with its line buffer emptied (context fields kept). -/
def zeroL (s : St) : St :=
  ⟨[], s.indent_level, s.switch_var, s.case_seen⟩

/-- `t` with `l0` prepended to its line buffer. -/
def prependL (l0 : List String) (t : St) : St :=
  ⟨l0 ++ t.lines, t.indent_level, t.switch_var, t.case_seen⟩

/-- Prepend `l0` to the line buffer of a visitor outcome. -/
def addL (l0 : List String) : VisitRes → VisitRes
  | .error e => .error e
  | .ok (v, t) => .ok (v, prependL l0 t)

/-- Prepend `l0` to the line buffer of a loop outcome. -/
def addLSt (l0 : List String) : Except String St → Except String St
  | .error e => .error e
  | .ok t => .ok (prependL l0 t)

/-- Prepend `l0` to the line buffer of an argument-list outcome. -/
def addLPair (l0 : List String) :
    Except String (List (Option String) × St) →
    Except String (List (Option String) × St)
  | .error e => .error e
  | .ok (vs, t) => .ok (vs, prependL l0 t)

mutual
/-- A node is switch-well-formed when every `Case`/`Default` label in it sits
inside a `Switch` statement (stray labels — which the C grammar, and hence
`pycparser`, accepts anywhere a statement may occur — read the leaked
per-switch context of whatever switch ran before).  A `Switch` node's body
is unconstrained: its visitation always begins from freshly written
per-switch context. -/
def wfNode : Node → Bool
  | .FileAST ext => wfList ext
  | .FuncDef _ _ body => wfNode body
  | .Compound items => wfList items
  | .DeclVar _ init => wfOpt init
  | .DeclArr _ dim => wfNode dim
  | .DeclOther _ => true
  | .Assignment _ lv rv => wfNode lv && wfNode rv
  | .Return e => wfOpt e
  | .If c t f => wfNode c && wfNode t && wfOpt f
  | .While c s => wfNode c && wfNode s
  | .For i c n s => wfOpt i && wfOpt c && wfOpt n && wfNode s
  | .ArrayRef n s => wfNode n && wfNode s
  | .Switch c _ => wfNode c
  | .Case _ _ => false
  | .Default _ => false
  | .FuncCall n args => wfNode n && wfOptList args
  | .ID _ => true
  | .Constant _ => true
  | .BinaryOp l _ r => wfNode l && wfNode r
  | .UnaryOp _ e => wfNode e
  | .Other _ => true
/-- `wfNode` over a node list. -/
def wfList : NodeList → Bool
  | .nil => true
  | .cons n rest => wfNode n && wfList rest
/-- `wfNode` over an optional node. -/
def wfOpt : OptNode → Bool
  | .none => true
  | .some n => wfNode n
/-- `wfNode` over an optional node list. -/
def wfOptList : OptNodeList → Bool
  | .none => true
  | .some l => wfList l
end

/-- Drop a trailing empty line, as the join/resplit round trip of the
preprocessing pass does. -/
def dropTrailingEmpty (ls : List String) : List String :=
  if ls.getLast? = Option.some "" then ls.dropLast else ls

/-! ## Concrete programs used as witnesses and counterexamples

Each definition records (in its doc comment) the C source text and the
`pycparser` AST shape it parses to. -/

/-- AST of `void f() { for (;;) { } }`: an empty `for` clause parses to a
`For` node whose `init`, `cond` and `next` are all `None`. -/
def forEmptyAst : Node :=
  .FileAST (.cons (.FuncDef "f" Option.none
    (.Compound (.cons (.For .none .none .none (.Compound .nil)) .nil))) .nil)

/-- AST of `void f() { int *p; printf("x"); }`: the pointer declaration is a
`Decl` whose type is a `PtrDecl`, i.e. the fallthrough branch of
`visit_Decl`. -/
def ptrDeclAst : Node :=
  .FileAST (.cons (.FuncDef "f" Option.none
    (.Compound (.cons (.DeclOther "p")
      (.cons (.FuncCall (.ID "printf")
        (.some (.cons (.Constant "\"x\"") .nil))) .nil)))) .nil)

/-- AST of `int add(a, b) { return a + b; }` (old-style parameter names). -/
def addAst : Node :=
  .FileAST (.cons (.FuncDef "add" (Option.some ["a", "b"])
    (.Compound (.cons (.Return (.some (.BinaryOp (.ID "a") "+" (.ID "b"))))
      .nil))) .nil)

/-- Stub for the external parser on the `add` source text (what `pycparser`
returns for it). -/
def parseAddStub : String → ParseResult := fun _ => .ok addAst

/-- AST of `for (i = 0; i < 10; <step>) { printf(i); }`, parameterized by
the increment-clause node `<step>`. -/
def forStepAst (step : Node) : Node :=
  .For (.some (.Assignment "=" (.ID "i") (.Constant "0")))
    (.some (.BinaryOp (.ID "i") "<" (.Constant "10")))
    (.some step)
    (.Compound (.cons (.FuncCall (.ID "printf") (.some (.cons (.ID "i") .nil))) .nil))

/-- AST of the statement `i = i + 1`. -/
def stepByOne : Node :=
  .Assignment "=" (.ID "i") (.BinaryOp (.ID "i") "+" (.Constant "1"))

/-- AST of the statement `i = i + 2`. -/
def stepByTwo : Node :=
  .Assignment "=" (.ID "i") (.BinaryOp (.ID "i") "+" (.Constant "2"))

/-- Body of `switch(x) { case 1: printf("one"); default: printf("other"); }`
(no `break` anywhere). -/
def switchDemoBody : Node :=
  .Compound
    (.cons (.Case (.Constant "1")
      (.cons (.FuncCall (.ID "printf") (.some (.cons (.Constant "\"one\"") .nil))) .nil))
    (.cons (.Default
      (.cons (.FuncCall (.ID "printf") (.some (.cons (.Constant "\"other\"") .nil))) .nil))
    .nil))

/-- AST of `switch(x) { case 1: printf("one"); default: printf("other"); }`. -/
def switchDemoAst : Node :=
  .Switch (.ID "x") switchDemoBody

/-- AST of `switch(x) { case 1: switch(y) { case 2: printf("a"); } case 3:
printf("b"); }`: a switch nested inside a case of an enclosing switch. -/
def nestedSwitchAst : Node :=
  .Switch (.ID "x") (.Compound
    (.cons (.Case (.Constant "1")
      (.cons (.Switch (.ID "y") (.Compound
        (.cons (.Case (.Constant "2")
          (.cons (.FuncCall (.ID "printf") (.some (.cons (.Constant "\"a\"") .nil))) .nil))
        .nil))) .nil))
    (.cons (.Case (.Constant "3")
      (.cons (.FuncCall (.ID "printf") (.some (.cons (.Constant "\"b\"") .nil))) .nil))
    .nil)))

/-- AST of `void f() { switch(x) { case 1: return 0; } }`: its switch leaves
`case_seen` true behind. -/
def leakF : Node :=
  .FuncDef "f" Option.none (.Compound
    (.cons (.Switch (.ID "x") (.Compound
      (.cons (.Case (.Constant "1") (.cons (.Return (.some (.Constant "0"))) .nil))
      .nil))) .nil))

/-- AST of `void g() { case 2: return 1; }`: the C grammar places labeled
statements (including `case` labels) anywhere a statement may occur, and
`pycparser` parses this stray label to a `Case` node outside any switch. -/
def leakG : Node :=
  .FuncDef "g" Option.none (.Compound
    (.cons (.Case (.Constant "2") (.cons (.Return (.some (.Constant "1"))) .nil))
    .nil))

/-- AST of `int f() { return 0; }`. -/
def plainF : Node :=
  .FuncDef "f" Option.none
    (.Compound (.cons (.Return (.some (.Constant "0"))) .nil))

/-- AST of `int g(a) { return a; }`. -/
def plainG : Node :=
  .FuncDef "g" (Option.some ["a"])
    (.Compound (.cons (.Return (.some (.ID "a"))) .nil))

/-- A depth-3 nesting (function body containing an `if` containing a
`while` containing a `return`), as in
`void f() { if (c) { while (d) { return e; } } }`. -/
def nestedDepth3 : Node :=
  .FuncDef "f" Option.none (.Compound
    (.cons (.If (.ID "c") (.Compound
      (.cons (.While (.ID "d") (.Compound
        (.cons (.Return (.some (.ID "e"))) .nil)))
      .nil)) .none)
    .nil))

/-! # Theorems

First the bookkeeping lemmas (state accessors, unfolding equations for
`visit`, composition laws for the line-buffer operations), then one
section per analyzed claim. -/

@[simp] theorem emit_lines (s : St) (l : String) : (emit s l).lines = s.lines ++ [l] := rfl
@[simp] theorem emit_indent_level (s : St) (l : String) : (emit s l).indent_level = s.indent_level := rfl
@[simp] theorem emit_switch_var (s : St) (l : String) : (emit s l).switch_var = s.switch_var := rfl
@[simp] theorem emit_case_seen (s : St) (l : String) : (emit s l).case_seen = s.case_seen := rfl

@[simp] theorem incIndent_lines (s : St) : (incIndent s).lines = s.lines := rfl
@[simp] theorem incIndent_indent_level (s : St) : (incIndent s).indent_level = s.indent_level + 1 := rfl
@[simp] theorem incIndent_switch_var (s : St) : (incIndent s).switch_var = s.switch_var := rfl
@[simp] theorem incIndent_case_seen (s : St) : (incIndent s).case_seen = s.case_seen := rfl

@[simp] theorem decIndent_lines (s : St) : (decIndent s).lines = s.lines := rfl
@[simp] theorem decIndent_indent_level (s : St) : (decIndent s).indent_level = s.indent_level - 1 := rfl
@[simp] theorem decIndent_switch_var (s : St) : (decIndent s).switch_var = s.switch_var := rfl
@[simp] theorem decIndent_case_seen (s : St) : (decIndent s).case_seen = s.case_seen := rfl

@[simp] theorem zeroL_lines (s : St) : (zeroL s).lines = [] := rfl
@[simp] theorem zeroL_indent_level (s : St) : (zeroL s).indent_level = s.indent_level := rfl
@[simp] theorem zeroL_switch_var (s : St) : (zeroL s).switch_var = s.switch_var := rfl
@[simp] theorem zeroL_case_seen (s : St) : (zeroL s).case_seen = s.case_seen := rfl

@[simp] theorem prependL_lines (l0 : List String) (t : St) : (prependL l0 t).lines = l0 ++ t.lines := rfl
@[simp] theorem prependL_indent_level (l0 : List String) (t : St) : (prependL l0 t).indent_level = t.indent_level := rfl
@[simp] theorem prependL_switch_var (l0 : List String) (t : St) : (prependL l0 t).switch_var = t.switch_var := rfl
@[simp] theorem prependL_case_seen (l0 : List String) (t : St) : (prependL l0 t).case_seen = t.case_seen := rfl

@[simp] theorem indent_emit (s : St) (l : String) : indent (emit s l) = indent s := rfl
@[simp] theorem indent_zeroL (s : St) : indent (zeroL s) = indent s := rfl
@[simp] theorem indent_prependL (l0 : List String) (t : St) : indent (prependL l0 t) = indent t := rfl

@[simp] theorem setSwitchCtx_lines (s : St) (v : Option String) : (setSwitchCtx s v).lines = s.lines := rfl
@[simp] theorem setSwitchCtx_indent_level (s : St) (v : Option String) : (setSwitchCtx s v).indent_level = s.indent_level := rfl
@[simp] theorem setSwitchCtx_switch_var (s : St) (v : Option String) : (setSwitchCtx s v).switch_var = v := rfl
@[simp] theorem setSwitchCtx_case_seen (s : St) (v : Option String) : (setSwitchCtx s v).case_seen = false := rfl

@[simp] theorem clearSwitchVar_lines (s : St) : (clearSwitchVar s).lines = s.lines := rfl
@[simp] theorem clearSwitchVar_indent_level (s : St) : (clearSwitchVar s).indent_level = s.indent_level := rfl
@[simp] theorem clearSwitchVar_switch_var (s : St) : (clearSwitchVar s).switch_var = Option.none := rfl
@[simp] theorem clearSwitchVar_case_seen (s : St) : (clearSwitchVar s).case_seen = s.case_seen := rfl

@[simp] theorem setCaseSeen_lines (s : St) : (setCaseSeen s).lines = s.lines := rfl
@[simp] theorem setCaseSeen_indent_level (s : St) : (setCaseSeen s).indent_level = s.indent_level := rfl
@[simp] theorem setCaseSeen_switch_var (s : St) : (setCaseSeen s).switch_var = s.switch_var := rfl
@[simp] theorem setCaseSeen_case_seen (s : St) : (setCaseSeen s).case_seen = true := rfl

theorem appendTruthy_indent_level (s : St) (code : Option String) :
    (appendTruthy s code).indent_level = s.indent_level := by
  rcases code with _ | c
  · rfl
  · by_cases hc : c = "" <;> simp [appendTruthy, hc]

theorem appendTruthy_switch_var (s : St) (code : Option String) :
    (appendTruthy s code).switch_var = s.switch_var := by
  rcases code with _ | c
  · rfl
  · by_cases hc : c = "" <;> simp [appendTruthy, hc]

theorem appendTruthy_case_seen (s : St) (code : Option String) :
    (appendTruthy s code).case_seen = s.case_seen := by
  rcases code with _ | c
  · rfl
  · by_cases hc : c = "" <;> simp [appendTruthy, hc]

theorem appendTruthy_prependL (l0 : List String) (t : St) (code : Option String) :
    appendTruthy (prependL l0 t) code = prependL l0 (appendTruthy t code) := by
  rcases code with _ | c
  · rfl
  · cases t
    by_cases hc : c = "" <;> simp [appendTruthy, hc, emit, prependL, indent]

theorem setSwitchCtx_prependL (l0 : List String) (t : St) (v : Option String) :
    setSwitchCtx (prependL l0 t) v = prependL l0 (setSwitchCtx t v) := rfl

theorem clearSwitchVar_prependL (l0 : List String) (t : St) :
    clearSwitchVar (prependL l0 t) = prependL l0 (clearSwitchVar t) := rfl

theorem setCaseSeen_prependL (l0 : List String) (t : St) :
    setCaseSeen (prependL l0 t) = prependL l0 (setCaseSeen t) := rfl

theorem zeroL_setSwitchCtx (s : St) (v : Option String) :
    zeroL (setSwitchCtx s v) = setSwitchCtx (zeroL s) v := rfl

theorem zeroL_setCaseSeen (s : St) : zeroL (setCaseSeen s) = setCaseSeen (zeroL s) := rfl

theorem prependL_nil (t : St) : prependL [] t = t := by
  cases t; simp [prependL]

theorem prependL_prependL (a b : List String) (t : St) :
    prependL a (prependL b t) = prependL (a ++ b) t := by
  cases t; simp [prependL]

theorem zeroL_emit (s : St) (l : String) : zeroL (emit s l) = zeroL s := rfl
theorem zeroL_prependL (l0 : List String) (t : St) : zeroL (prependL l0 t) = zeroL t := rfl
theorem zeroL_incIndent (s : St) : zeroL (incIndent s) = incIndent (zeroL s) := rfl
theorem zeroL_decIndent (s : St) : zeroL (decIndent s) = decIndent (zeroL s) := rfl

theorem emit_prependL (l0 : List String) (t : St) (l : String) :
    emit (prependL l0 t) l = prependL l0 (emit t l) := by
  cases t; simp [emit, prependL]

theorem incIndent_prependL (l0 : List String) (t : St) :
    incIndent (prependL l0 t) = prependL l0 (incIndent t) := rfl

theorem decIndent_prependL (l0 : List String) (t : St) :
    decIndent (prependL l0 t) = prependL l0 (decIndent t) := rfl

@[simp] theorem addL_error (l0 : List String) (e : String) :
    addL l0 (.error e) = .error e := rfl
@[simp] theorem addL_ok (l0 : List String) (v : Option String) (t : St) :
    addL l0 (.ok (v, t)) = .ok (v, prependL l0 t) := rfl
@[simp] theorem addLSt_error (l0 : List String) (e : String) :
    addLSt l0 (.error e) = .error e := rfl
@[simp] theorem addLSt_ok (l0 : List String) (t : St) :
    addLSt l0 (.ok t) = .ok (prependL l0 t) := rfl
@[simp] theorem addLPair_error (l0 : List String) (e : String) :
    addLPair l0 (.error e) = .error e := rfl
@[simp] theorem addLPair_ok (l0 : List String) (vs : List (Option String)) (t : St) :
    addLPair l0 (.ok (vs, t)) = .ok (vs, prependL l0 t) := rfl

theorem addL_nil (x : VisitRes) : addL [] x = x := by
  cases x with
  | error e => rfl
  | ok p => obtain ⟨v, t⟩ := p; simp [prependL_nil]

theorem addL_addL (a b : List String) (x : VisitRes) :
    addL a (addL b x) = addL (a ++ b) x := by
  cases x with
  | error e => rfl
  | ok p => obtain ⟨v, t⟩ := p; simp [prependL_prependL]

theorem addLSt_addLSt (a b : List String) (x : Except String St) :
    addLSt a (addLSt b x) = addLSt (a ++ b) x := by
  cases x with
  | error e => rfl
  | ok t => simp [prependL_prependL]

theorem addLPair_addLPair (a b : List String) (x : Except String (List (Option String) × St)) :
    addLPair a (addLPair b x) = addLPair (a ++ b) x := by
  cases x with
  | error e => rfl
  | ok p => obtain ⟨vs, t⟩ := p; simp [prependL_prependL]

/-! ## Unfolding equations of the visitor, one per dispatch target -/

theorem visit_fileAST (l : NodeList) (st : St) :
    visit (.FileAST l) st =
      (match visitTop l st with
       | .error e => .error e
       | .ok st1 => .ok (Option.none, st1)) := rfl

theorem visit_funcDef (name : String) (params : Option (List String)) (body : Node) (st : St) :
    visit (.FuncDef name params body) st =
      (match visit body (incIndent (emit st
          (indent st ++ "def " ++ name ++ "(" ++ get_func_args params ++ "):"))) with
       | .error e => .error e
       | .ok (_, st3) => .ok (Option.none, decIndent st3)) := rfl

theorem visit_compound (items : NodeList) (st : St) :
    visit (.Compound items) st =
      (match visitStmts items st with
       | .error e => .error e
       | .ok st1 => .ok (Option.none, st1)) := rfl

theorem visit_declVar_none (name : String) (st : St) :
    visit (.DeclVar name .none) st = .ok (Option.some (name ++ " = " ++ "None"), st) := rfl

theorem visit_declVar_some (name : String) (e : Node) (st : St) :
    visit (.DeclVar name (.some e)) st =
      (match visit e st with
       | .error ex => .error ex
       | .ok (v, st1) => .ok (Option.some (name ++ " = " ++ pyStr v), st1)) := rfl

theorem visit_declArr (name : String) (dim : Node) (st : St) :
    visit (.DeclArr name dim) st =
      (match visit dim st with
       | .error ex => .error ex
       | .ok (v, st1) => .ok (Option.some (name ++ " = [None] * " ++ pyStr v), st1)) := rfl

theorem visit_declOther (name : String) (st : St) :
    visit (.DeclOther name) st = .ok (Option.some "", st) := rfl

theorem visit_assignment (op : String) (lv rv : Node) (st : St) :
    visit (.Assignment op lv rv) st =
      (match visit lv st with
       | .error ex => .error ex
       | .ok (l, st1) =>
         match visit rv st1 with
         | .error ex => .error ex
         | .ok (r, st2) => .ok (Option.some (pyStr l ++ " = " ++ pyStr r), st2)) := rfl

theorem visit_return (expr : OptNode) (st : St) :
    visit (.Return expr) st =
      (match visitOpt expr st with
       | .error ex => .error ex
       | .ok (v, st1) => .ok (Option.some ("return " ++ pyStr v), st1)) := rfl

theorem visit_if_noElse (cond iftrue : Node) (st : St) :
    visit (.If cond iftrue .none) st =
      (match visit cond st with
       | .error ex => .error ex
       | .ok (c, st1) =>
         match visit iftrue (incIndent (emit st1 (indent st1 ++ "if " ++ pyStr c ++ ":"))) with
         | .error ex => .error ex
         | .ok (_, st3) => .ok (Option.none, decIndent st3)) := rfl

theorem visit_if_else (cond iftrue e : Node) (st : St) :
    visit (.If cond iftrue (.some e)) st =
      (match visit cond st with
       | .error ex => .error ex
       | .ok (c, st1) =>
         match visit iftrue (incIndent (emit st1 (indent st1 ++ "if " ++ pyStr c ++ ":"))) with
         | .error ex => .error ex
         | .ok (_, st3) =>
           match visit e (incIndent (emit (decIndent st3) (indent (decIndent st3) ++ "else:"))) with
           | .error ex => .error ex
           | .ok (_, st6) => .ok (Option.none, decIndent st6)) := rfl

theorem visit_while (cond stmt : Node) (st : St) :
    visit (.While cond stmt) st =
      (match visit cond st with
       | .error ex => .error ex
       | .ok (c, st1) =>
         match visit stmt (incIndent (emit st1 (indent st1 ++ "while " ++ pyStr c ++ ":"))) with
         | .error ex => .error ex
         | .ok (_, st3) => .ok (Option.none, decIndent st3)) := rfl

theorem visit_for_full (op : String) (lv rv bl : Node) (bop : String) (r : Node)
    (nx : OptNode) (stmt : Node) (st : St) :
    visit (.For (.some (.Assignment op lv rv)) (.some (.BinaryOp bl bop r)) nx stmt) st =
      (match visit lv st with
       | .error ex => .error ex
       | .ok (var, st1) =>
         match visit rv st1 with
         | .error ex => .error ex
         | .ok (start, st2) =>
           match visit r st2 with
           | .error ex => .error ex
           | .ok (stop, st3) =>
             match visit stmt (incIndent (emit st3 (indent st3 ++ "for " ++ pyStr var ++
                 " in range(" ++ pyStr start ++ ", " ++ pyStr stop ++ "):"))) with
             | .error ex => .error ex
             | .ok (_, st5) => .ok (Option.none, decIndent st5)) := rfl

theorem visit_for_badCond (op : String) (lv rv : Node) (cond nx : OptNode) (stmt : Node) (st : St)
    (h : ∀ bl bop r, cond ≠ .some (.BinaryOp bl bop r)) :
    visit (.For (.some (.Assignment op lv rv)) cond nx stmt) st =
      (match visit lv st with
       | .error ex => .error ex
       | .ok (_, st1) =>
         match visit rv st1 with
         | .error ex => .error ex
         | .ok (_, _) =>
           (.error "AttributeError: node.cond has no attribute right" : VisitRes)) := by
  cases cond with
  | none => rfl
  | some x =>
    cases x
    case BinaryOp bl bop r => exact absurd rfl (h bl bop r)
    all_goals rfl

theorem visit_for_badInit (i cond nx : OptNode) (stmt : Node) (st : St)
    (h : ∀ op lv rv, i ≠ .some (.Assignment op lv rv)) :
    visit (.For i cond nx stmt) st =
      .error "AttributeError: node.init has no attribute lvalue" := by
  cases i with
  | none => rfl
  | some x =>
    cases x
    case Assignment op lv rv => exact absurd rfl (h op lv rv)
    all_goals rfl

theorem visit_arrayRef (name subscript : Node) (st : St) :
    visit (.ArrayRef name subscript) st =
      (match visit name st with
       | .error ex => .error ex
       | .ok (n, st1) =>
         match visit subscript st1 with
         | .error ex => .error ex
         | .ok (s, st2) => .ok (Option.some (pyStr n ++ "[" ++ pyStr s ++ "]"), st2)) := rfl

theorem visit_switch (cond stmt : Node) (st : St) :
    visit (.Switch cond stmt) st =
      (match visit cond st with
       | .error ex => .error ex
       | .ok (v, st1) =>
         match visit stmt (setSwitchCtx
             (emit st1 (indent st1 ++ "# switch(" ++ pyStr v ++ ") equivalent")) v) with
         | .error ex => .error ex
         | .ok (_, st4) => .ok (Option.none, clearSwitchVar st4)) := rfl

theorem visit_case (expr : Node) (stmts : NodeList) (st : St) :
    visit (.Case expr stmts) st =
      (match visit expr st with
       | .error ex => .error ex
       | .ok (v, st1) =>
         match visitStmts stmts (incIndent (setCaseSeen (emit st1 (indent st1 ++
             (if st1.case_seen = false then "if" else "elif") ++ " " ++
             pyStr st1.switch_var ++ " == " ++ pyStr v ++ ":")))) with
         | .error ex => .error ex
         | .ok st4 => .ok (Option.none, decIndent st4)) := rfl

theorem visit_default (stmts : NodeList) (st : St) :
    visit (.Default stmts) st =
      (match visitStmts stmts (incIndent (emit st (indent st ++ "else:"))) with
       | .error ex => .error ex
       | .ok st2 => .ok (Option.none, decIndent st2)) := rfl

theorem visit_funcCall_noArgs (name : Node) (st : St) :
    visit (.FuncCall name .none) st =
      (match visit name st with
       | .error ex => .error ex
       | .ok (fn, st1) =>
         if fn = Option.some "printf" then .ok (Option.some "print()", st1)
         else .ok (Option.some (pyStr fn ++ "()"), st1)) := rfl

theorem visit_funcCall_args (name : Node) (exprs : NodeList) (st : St) :
    visit (.FuncCall name (.some exprs)) st =
      (match visit name st with
       | .error ex => .error ex
       | .ok (fn, st1) =>
         match visitExprList exprs st1 with
         | .error ex => .error ex
         | .ok (vs, st2) =>
           match allSome vs with
           | Option.none => .error "TypeError: sequence item: expected str instance"
           | Option.some ss =>
             if fn = Option.some "printf" then
               .ok (Option.some ("print(" ++ String.intercalate ", " ss ++ ")"), st2)
             else
               .ok (Option.some (pyStr fn ++ "(" ++ String.intercalate ", " ss ++ ")"), st2)) := rfl

theorem visit_id (name : String) (st : St) :
    visit (.ID name) st = .ok (Option.some name, st) := rfl

theorem visit_constant (value : String) (st : St) :
    visit (.Constant value) st = .ok (Option.some value, st) := rfl

theorem visit_binaryOp (left : Node) (op : String) (right : Node) (st : St) :
    visit (.BinaryOp left op right) st =
      (match visit left st with
       | .error ex => .error ex
       | .ok (l, st1) =>
         match visit right st1 with
         | .error ex => .error ex
         | .ok (r, st2) => .ok (Option.some (pyStr l ++ " " ++ op ++ " " ++ pyStr r), st2)) := rfl

theorem visit_unaryOp (op : String) (expr : Node) (st : St) :
    visit (.UnaryOp op expr) st =
      (match visit expr st with
       | .error ex => .error ex
       | .ok (v, st1) => .ok (Option.some (op ++ pyStr v), st1)) := rfl

theorem visit_other (kind : String) (st : St) :
    visit (.Other kind) st = .ok (Option.some ("# [Unhandled: " ++ kind ++ "]"), st) := rfl

theorem visitTop_nil (st : St) : visitTop .nil st = .ok st := rfl

theorem visitTop_cons (n : Node) (rest : NodeList) (st : St) :
    visitTop (.cons n rest) st =
      (match visit n st with
       | .error e => .error e
       | .ok (_, st1) => visitTop rest st1) := rfl

theorem visitStmts_nil (st : St) : visitStmts .nil st = .ok st := rfl

theorem visitStmts_cons (s : Node) (rest : NodeList) (st : St) :
    visitStmts (.cons s rest) st =
      (match visit s st with
       | .error e => .error e
       | .ok (code, st1) => visitStmts rest (appendTruthy st1 code)) := rfl

theorem visitExprList_nil (st : St) : visitExprList .nil st = .ok ([], st) := rfl

theorem visitExprList_cons (e : Node) (rest : NodeList) (st : St) :
    visitExprList (.cons e rest) st =
      (match visit e st with
       | .error ex => .error ex
       | .ok (v, st1) =>
         match visitExprList rest st1 with
         | .error ex => .error ex
         | .ok (vs, st2) => .ok (v :: vs, st2)) := rfl

theorem visitOpt_none (st : St) :
    visitOpt .none st = .ok (Option.some "# [Unhandled: NoneType]", st) := rfl

theorem visitOpt_some (e : Node) (st : St) : visitOpt (.some e) st = visit e st := rfl

/-- Exhaustive classification of a `For` node's `init`/`cond` shapes, as the
three arms of the visitor distinguish them. -/
theorem forShape (i cond : OptNode) :
    (∃ op lv rv bl bop r, i = .some (.Assignment op lv rv) ∧ cond = .some (.BinaryOp bl bop r)) ∨
    ((∃ op lv rv, i = .some (.Assignment op lv rv)) ∧ (∀ bl bop r, cond ≠ .some (.BinaryOp bl bop r))) ∨
    (∀ op lv rv, i ≠ .some (.Assignment op lv rv)) := by
  rcases i with _ | x
  · right; right; intro a b c h; cases h
  · cases x
    case Assignment op lv rv =>
      rcases cond with _ | y
      · right; left; exact ⟨⟨op, lv, rv, rfl⟩, by intro a b c h; cases h⟩
      · cases y
        case BinaryOp bl bop r => left; exact ⟨op, lv, rv, bl, bop, r, rfl, rfl⟩
        all_goals (right; left; exact ⟨⟨op, lv, rv, rfl⟩, by intro a b c h; cases h⟩)
    all_goals (right; right; intro a b c h; cases h)


/-- Size-bounded conjunction of the indentation-restoration statements for
the five mutually recursive visitor functions (proved by strong induction
on the size bound; the per-claim statements are corollaries). -/
theorem indentInv : ∀ k : Nat,
    (∀ n : Node, sizeOf n < k → ∀ st r st', visit n st = .ok (r, st') →
      st'.indent_level = st.indent_level) ∧
    (∀ l : NodeList, sizeOf l < k → ∀ st st', visitTop l st = .ok st' →
      st'.indent_level = st.indent_level) ∧
    (∀ l : NodeList, sizeOf l < k → ∀ st st', visitStmts l st = .ok st' →
      st'.indent_level = st.indent_level) ∧
    (∀ l : NodeList, sizeOf l < k → ∀ st vs st', visitExprList l st = .ok (vs, st') →
      st'.indent_level = st.indent_level) ∧
    (∀ o : OptNode, sizeOf o < k → ∀ st r st', visitOpt o st = .ok (r, st') →
      st'.indent_level = st.indent_level) := by
  intro k
  induction k with
  | zero =>
    refine ⟨?_, ?_, ?_, ?_, ?_⟩ <;>
      (intro x hsize; exact absurd hsize (Nat.not_lt_zero _))
  | succ k ih =>
    obtain ⟨ihV, ihT, ihS, ihE, ihO⟩ := ih
    refine ⟨?_, ?_, ?_, ?_, ?_⟩
    · -- visit
      intro n hsize st r st' h
      cases n with
      | FileAST l =>
        have hk := hsize; simp_arith at hk
        rw [visit_fileAST] at h
        cases hv : visitTop l st with
        | error e => simp [hv] at h
        | ok st1 =>
          simp only [hv] at h
          cases h
          exact ihT l (by omega) st _ hv
      | FuncDef name params body =>
        have hk := hsize; simp_arith at hk
        rw [visit_funcDef] at h
        cases hv : visit body (incIndent (emit st
            (indent st ++ "def " ++ name ++ "(" ++ get_func_args params ++ "):"))) with
        | error e => simp [hv] at h
        | ok p =>
          obtain ⟨v1, st3⟩ := p
          simp only [hv] at h
          cases h
          have h3 := ihV body (by omega) _ _ _ hv
          simp only [incIndent_indent_level, emit_indent_level] at h3
          simp only [decIndent_indent_level, h3]
          omega
      | Compound items =>
        have hk := hsize; simp_arith at hk
        rw [visit_compound] at h
        cases hv : visitStmts items st with
        | error e => simp [hv] at h
        | ok st1 =>
          simp only [hv] at h
          cases h
          exact ihS items (by omega) st _ hv
      | DeclVar name init =>
        rcases init with _ | e
        · rw [visit_declVar_none] at h; cases h; rfl
        · have hk := hsize; simp_arith at hk
          rw [visit_declVar_some] at h
          cases hv : visit e st with
          | error ex => simp [hv] at h
          | ok p =>
            obtain ⟨v1, st1⟩ := p
            simp only [hv] at h
            cases h
            exact ihV e (by omega) st _ _ hv
      | DeclArr name dim =>
        have hk := hsize; simp_arith at hk
        rw [visit_declArr] at h
        cases hv : visit dim st with
        | error ex => simp [hv] at h
        | ok p =>
          obtain ⟨v1, st1⟩ := p
          simp only [hv] at h
          cases h
          exact ihV dim (by omega) st _ _ hv
      | DeclOther name =>
        rw [visit_declOther] at h; cases h; rfl
      | Assignment op lv rv =>
        have hk := hsize; simp_arith at hk
        rw [visit_assignment] at h
        cases hv : visit lv st with
        | error ex => simp [hv] at h
        | ok p =>
          obtain ⟨v1, st1⟩ := p
          simp only [hv] at h
          cases hv2 : visit rv st1 with
          | error ex => simp [hv2] at h
          | ok q =>
            obtain ⟨v2, st2⟩ := q
            simp only [hv2] at h
            cases h
            rw [ihV rv (by omega) st1 _ _ hv2]
            exact ihV lv (by omega) st _ _ hv
      | Return expr =>
        have hk := hsize; simp_arith at hk
        rw [visit_return] at h
        cases hv : visitOpt expr st with
        | error ex => simp [hv] at h
        | ok p =>
          obtain ⟨v1, st1⟩ := p
          simp only [hv] at h
          cases h
          exact ihO expr (by omega) st _ _ hv
      | If cond iftrue iffalse =>
        rcases iffalse with _ | e
        · have hk := hsize; simp_arith at hk
          rw [visit_if_noElse] at h
          cases hv : visit cond st with
          | error ex => simp [hv] at h
          | ok p =>
            obtain ⟨c, st1⟩ := p
            simp only [hv] at h
            cases hv2 : visit iftrue (incIndent (emit st1 (indent st1 ++ "if " ++ pyStr c ++ ":"))) with
            | error ex => simp [hv2] at h
            | ok q =>
              obtain ⟨v2, st3⟩ := q
              simp only [hv2] at h
              cases h
              have h1 := ihV cond (by omega) st _ _ hv
              have h3 := ihV iftrue (by omega) _ _ _ hv2
              simp only [incIndent_indent_level, emit_indent_level] at h3
              simp only [decIndent_indent_level, h3, h1]
              omega
        · have hk := hsize; simp_arith at hk
          rw [visit_if_else] at h
          cases hv : visit cond st with
          | error ex => simp [hv] at h
          | ok p =>
            obtain ⟨c, st1⟩ := p
            simp only [hv] at h
            cases hv2 : visit iftrue (incIndent (emit st1 (indent st1 ++ "if " ++ pyStr c ++ ":"))) with
            | error ex => simp [hv2] at h
            | ok q =>
              obtain ⟨v2, st3⟩ := q
              simp only [hv2] at h
              cases hv3 : visit e (incIndent (emit (decIndent st3)
                  (indent (decIndent st3) ++ "else:"))) with
              | error ex => simp [hv3] at h
              | ok q3 =>
                obtain ⟨v3, st6⟩ := q3
                simp only [hv3] at h
                cases h
                have h1 := ihV cond (by omega) st _ _ hv
                have h3 := ihV iftrue (by omega) _ _ _ hv2
                have h6 := ihV e (by omega) _ _ _ hv3
                simp only [incIndent_indent_level, emit_indent_level, decIndent_indent_level] at h3 h6
                simp only [decIndent_indent_level, h6, h3, h1]
                omega
      | While cond stmt =>
        have hk := hsize; simp_arith at hk
        rw [visit_while] at h
        cases hv : visit cond st with
        | error ex => simp [hv] at h
        | ok p =>
          obtain ⟨c, st1⟩ := p
          simp only [hv] at h
          cases hv2 : visit stmt (incIndent (emit st1 (indent st1 ++ "while " ++ pyStr c ++ ":"))) with
          | error ex => simp [hv2] at h
          | ok q =>
            obtain ⟨v2, st3⟩ := q
            simp only [hv2] at h
            cases h
            have h1 := ihV cond (by omega) st _ _ hv
            have h3 := ihV stmt (by omega) _ _ _ hv2
            simp only [incIndent_indent_level, emit_indent_level] at h3
            simp only [decIndent_indent_level, h3, h1]
            omega
      | For i cond nx stmt =>
        rcases forShape i cond with ⟨op, lv, rv, bl, bop, rr, hi, hc⟩ | ⟨⟨op, lv, rv, hi⟩, hc⟩ | hi
        · subst hi; subst hc
          have hk := hsize; simp_arith at hk
          rw [visit_for_full] at h
          cases hv : visit lv st with
          | error ex => simp [hv] at h
          | ok p =>
            obtain ⟨var, st1⟩ := p
            simp only [hv] at h
            cases hv2 : visit rv st1 with
            | error ex => simp [hv2] at h
            | ok q =>
              obtain ⟨start, st2⟩ := q
              simp only [hv2] at h
              cases hv3 : visit rr st2 with
              | error ex => simp [hv3] at h
              | ok q3 =>
                obtain ⟨stop, st3⟩ := q3
                simp only [hv3] at h
                cases hv4 : visit stmt (incIndent (emit st3 (indent st3 ++ "for " ++ pyStr var ++
                    " in range(" ++ pyStr start ++ ", " ++ pyStr stop ++ "):"))) with
                | error ex => simp [hv4] at h
                | ok q4 =>
                  obtain ⟨v4, st5⟩ := q4
                  simp only [hv4] at h
                  cases h
                  have h1 := ihV lv (by omega) st _ _ hv
                  have h2 := ihV rv (by omega) st1 _ _ hv2
                  have h3 := ihV rr (by omega) st2 _ _ hv3
                  have h5 := ihV stmt (by omega) _ _ _ hv4
                  simp only [incIndent_indent_level, emit_indent_level] at h5
                  simp only [decIndent_indent_level, h5, h3, h2, h1]
                  omega
        · subst hi
          rw [visit_for_badCond _ _ _ _ _ _ _ hc] at h
          cases hv : visit lv st with
          | error ex => simp [hv] at h
          | ok p =>
            obtain ⟨v1, st1⟩ := p
            simp only [hv] at h
            cases hv2 : visit rv st1 with
            | error ex => simp [hv2] at h
            | ok q =>
              obtain ⟨v2, st2⟩ := q
              simp [hv2] at h
        · rw [visit_for_badInit _ _ _ _ _ hi] at h
          exact Except.noConfusion h
      | ArrayRef name subscript =>
        have hk := hsize; simp_arith at hk
        rw [visit_arrayRef] at h
        cases hv : visit name st with
        | error ex => simp [hv] at h
        | ok p =>
          obtain ⟨v1, st1⟩ := p
          simp only [hv] at h
          cases hv2 : visit subscript st1 with
          | error ex => simp [hv2] at h
          | ok q =>
            obtain ⟨v2, st2⟩ := q
            simp only [hv2] at h
            cases h
            rw [ihV subscript (by omega) st1 _ _ hv2]
            exact ihV name (by omega) st _ _ hv
      | Switch cond stmt =>
        have hk := hsize; simp_arith at hk
        rw [visit_switch] at h
        cases hv : visit cond st with
        | error ex => simp [hv] at h
        | ok p =>
          obtain ⟨v1, st1⟩ := p
          simp only [hv] at h
          cases hv2 : visit stmt (setSwitchCtx
              (emit st1 (indent st1 ++ "# switch(" ++ pyStr v1 ++ ") equivalent")) v1) with
          | error ex => simp [hv2] at h
          | ok q =>
            obtain ⟨v2, st4⟩ := q
            simp only [hv2] at h
            cases h
            have h1 := ihV cond (by omega) st _ _ hv
            have h4 := ihV stmt (by omega) _ _ _ hv2
            simp only [setSwitchCtx_indent_level, emit_indent_level] at h4
            simp only [clearSwitchVar_indent_level, h4, h1]
      | Case expr stmts =>
        have hk := hsize; simp_arith at hk
        rw [visit_case] at h
        cases hv : visit expr st with
        | error ex => simp [hv] at h
        | ok p =>
          obtain ⟨v1, st1⟩ := p
          simp only [hv] at h
          cases hv2 : visitStmts stmts (incIndent (setCaseSeen (emit st1 (indent st1 ++
              (if st1.case_seen = false then "if" else "elif") ++ " " ++
              pyStr st1.switch_var ++ " == " ++ pyStr v1 ++ ":")))) with
          | error ex => simp [hv2] at h
          | ok st4 =>
            simp only [hv2] at h
            cases h
            have h1 := ihV expr (by omega) st _ _ hv
            have h4 := ihS stmts (by omega) _ _ hv2
            simp only [incIndent_indent_level, setCaseSeen_indent_level, emit_indent_level] at h4
            simp only [decIndent_indent_level, h4, h1]
            omega
      | Default stmts =>
        have hk := hsize; simp_arith at hk
        rw [visit_default] at h
        cases hv : visitStmts stmts (incIndent (emit st (indent st ++ "else:"))) with
        | error ex => simp [hv] at h
        | ok st2 =>
          simp only [hv] at h
          cases h
          have h2 := ihS stmts (by omega) _ _ hv
          simp only [incIndent_indent_level, emit_indent_level] at h2
          simp only [decIndent_indent_level, h2]
          omega
      | FuncCall name args =>
        rcases args with _ | exprs
        · have hk := hsize; simp_arith at hk
          rw [visit_funcCall_noArgs] at h
          cases hv : visit name st with
          | error ex => simp [hv] at h
          | ok p =>
            obtain ⟨fn, st1⟩ := p
            simp only [hv] at h
            split at h <;> (cases h; exact ihV name (by omega) st _ _ hv)
        · have hk := hsize; simp_arith at hk
          rw [visit_funcCall_args] at h
          cases hv : visit name st with
          | error ex => simp [hv] at h
          | ok p =>
            obtain ⟨fn, st1⟩ := p
            simp only [hv] at h
            cases hv2 : visitExprList exprs st1 with
            | error ex => simp [hv2] at h
            | ok q =>
              obtain ⟨vs, st2⟩ := q
              simp only [hv2] at h
              cases hall : allSome vs with
              | none => simp [hall] at h
              | some ss =>
                simp only [hall] at h
                split at h <;>
                  (cases h
                   rw [ihE exprs (by omega) st1 _ _ hv2]
                   exact ihV name (by omega) st _ _ hv)
      | ID name => rw [visit_id] at h; cases h; rfl
      | Constant value => rw [visit_constant] at h; cases h; rfl
      | BinaryOp left op right =>
        have hk := hsize; simp_arith at hk
        rw [visit_binaryOp] at h
        cases hv : visit left st with
        | error ex => simp [hv] at h
        | ok p =>
          obtain ⟨v1, st1⟩ := p
          simp only [hv] at h
          cases hv2 : visit right st1 with
          | error ex => simp [hv2] at h
          | ok q =>
            obtain ⟨v2, st2⟩ := q
            simp only [hv2] at h
            cases h
            rw [ihV right (by omega) st1 _ _ hv2]
            exact ihV left (by omega) st _ _ hv
      | UnaryOp op expr =>
        have hk := hsize; simp_arith at hk
        rw [visit_unaryOp] at h
        cases hv : visit expr st with
        | error ex => simp [hv] at h
        | ok p =>
          obtain ⟨v1, st1⟩ := p
          simp only [hv] at h
          cases h
          exact ihV expr (by omega) st _ _ hv
      | Other kind => rw [visit_other] at h; cases h; rfl
    · -- visitTop
      intro l hsize st st' h
      cases l with
      | nil => rw [visitTop_nil] at h; cases h; rfl
      | cons n rest =>
        have hk := hsize; simp_arith at hk
        rw [visitTop_cons] at h
        cases hv : visit n st with
        | error e => simp [hv] at h
        | ok p =>
          obtain ⟨v1, st1⟩ := p
          simp only [hv] at h
          rw [ihT rest (by omega) st1 _ h]
          exact ihV n (by omega) st _ _ hv
    · -- visitStmts
      intro l hsize st st' h
      cases l with
      | nil => rw [visitStmts_nil] at h; cases h; rfl
      | cons s rest =>
        have hk := hsize; simp_arith at hk
        rw [visitStmts_cons] at h
        cases hv : visit s st with
        | error e => simp [hv] at h
        | ok p =>
          obtain ⟨code, st1⟩ := p
          simp only [hv] at h
          rw [ihS rest (by omega) _ _ h]
          rw [appendTruthy_indent_level]
          exact ihV s (by omega) st _ _ hv
    · -- visitExprList
      intro l hsize st vs st' h
      cases l with
      | nil => rw [visitExprList_nil] at h; cases h; rfl
      | cons e rest =>
        have hk := hsize; simp_arith at hk
        rw [visitExprList_cons] at h
        cases hv : visit e st with
        | error ex => simp [hv] at h
        | ok p =>
          obtain ⟨v1, st1⟩ := p
          simp only [hv] at h
          cases hv2 : visitExprList rest st1 with
          | error ex => simp [hv2] at h
          | ok q =>
            obtain ⟨vs2, st2⟩ := q
            simp only [hv2] at h
            cases h
            rw [ihE rest (by omega) st1 _ _ hv2]
            exact ihV e (by omega) st _ _ hv
    · -- visitOpt
      intro o hsize st r st' h
      cases o with
      | none => rw [visitOpt_none] at h; cases h; rfl
      | some e =>
        have hk := hsize; simp_arith at hk
        rw [visitOpt_some] at h
        exact ihV e (by omega) st _ _ h

/-- Corollary of `indentInv` for `visit`. -/
theorem visit_indent_eq (n : Node) (st : St) (r : Option String) (st' : St)
    (h : visit n st = .ok (r, st')) : st'.indent_level = st.indent_level :=
  (indentInv (sizeOf n + 1)).1 n (Nat.lt_succ_self _) st r st' h

/-- Corollary of `indentInv` for `visitTop`. -/
theorem visitTop_indent_eq (l : NodeList) (st st' : St)
    (h : visitTop l st = .ok st') : st'.indent_level = st.indent_level :=
  (indentInv (sizeOf l + 1)).2.1 l (Nat.lt_succ_self _) st st' h

/-- Corollary of `indentInv` for `visitStmts`. -/
theorem visitStmts_indent_eq (l : NodeList) (st st' : St)
    (h : visitStmts l st = .ok st') : st'.indent_level = st.indent_level :=
  (indentInv (sizeOf l + 1)).2.2.1 l (Nat.lt_succ_self _) st st' h

/-! ## The line buffer is append-only and does not influence anything else

`visit` run from a state with extra lines `l0` prepended behaves exactly as
from the original state, with `l0` prepended to the resulting line buffer.
Six small commuting lemmas first, one per match shape in the visitor. -/

theorem spVV (l0 : List String) (x : VisitRes) (g : Option String → St → VisitRes)
    (hg : ∀ v t, g v (prependL l0 t) = addL l0 (g v t)) :
    (match addL l0 x with
     | .error e => .error e
     | .ok (v, t) => g v t) =
      addL l0 (match x with
       | .error e => .error e
       | .ok (v, t) => g v t) := by
  cases x with
  | error e => rfl
  | ok p => obtain ⟨v, t⟩ := p; exact hg v t

theorem spVSt (l0 : List String) (x : VisitRes) (g : Option String → St → Except String St)
    (hg : ∀ v t, g v (prependL l0 t) = addLSt l0 (g v t)) :
    (match addL l0 x with
     | .error e => .error e
     | .ok (v, t) => g v t) =
      addLSt l0 (match x with
       | .error e => .error e
       | .ok (v, t) => g v t) := by
  cases x with
  | error e => rfl
  | ok p => obtain ⟨v, t⟩ := p; exact hg v t

theorem spStV (l0 : List String) (x : Except String St) (g : St → VisitRes)
    (hg : ∀ t, g (prependL l0 t) = addL l0 (g t)) :
    (match addLSt l0 x with
     | .error e => .error e
     | .ok t => g t) =
      addL l0 (match x with
       | .error e => .error e
       | .ok t => g t) := by
  cases x with
  | error e => rfl
  | ok t => exact hg t

theorem spVP (l0 : List String) (x : VisitRes)
    (g : Option String → St → Except String (List (Option String) × St))
    (hg : ∀ v t, g v (prependL l0 t) = addLPair l0 (g v t)) :
    (match addL l0 x with
     | .error e => .error e
     | .ok (v, t) => g v t) =
      addLPair l0 (match x with
       | .error e => .error e
       | .ok (v, t) => g v t) := by
  cases x with
  | error e => rfl
  | ok p => obtain ⟨v, t⟩ := p; exact hg v t

theorem spPP (l0 : List String) (x : Except String (List (Option String) × St))
    (g : List (Option String) → St → Except String (List (Option String) × St))
    (hg : ∀ vs t, g vs (prependL l0 t) = addLPair l0 (g vs t)) :
    (match addLPair l0 x with
     | .error e => .error e
     | .ok (vs, t) => g vs t) =
      addLPair l0 (match x with
       | .error e => .error e
       | .ok (vs, t) => g vs t) := by
  cases x with
  | error e => rfl
  | ok p => obtain ⟨vs, t⟩ := p; exact hg vs t

theorem spPV (l0 : List String) (x : Except String (List (Option String) × St))
    (g : List (Option String) → St → VisitRes)
    (hg : ∀ vs t, g vs (prependL l0 t) = addL l0 (g vs t)) :
    (match addLPair l0 x with
     | .error e => .error e
     | .ok (vs, t) => g vs t) =
      addL l0 (match x with
       | .error e => .error e
       | .ok (vs, t) => g vs t) := by
  cases x with
  | error e => rfl
  | ok p => obtain ⟨vs, t⟩ := p; exact hg vs t

/-- Size-bounded conjunction of the line-prepend-invariance statements: a
visit from a state with `l0` prepended to the line buffer yields the same
outcome with `l0` prepended.  In particular the visitor only ever appends
to `lines` and reads nothing from it. -/
theorem prependInv : ∀ k : Nat,
    (∀ n : Node, sizeOf n < k → ∀ s l0, visit n (prependL l0 s) = addL l0 (visit n s)) ∧
    (∀ l : NodeList, sizeOf l < k → ∀ s l0, visitTop l (prependL l0 s) = addLSt l0 (visitTop l s)) ∧
    (∀ l : NodeList, sizeOf l < k → ∀ s l0, visitStmts l (prependL l0 s) = addLSt l0 (visitStmts l s)) ∧
    (∀ l : NodeList, sizeOf l < k → ∀ s l0, visitExprList l (prependL l0 s) = addLPair l0 (visitExprList l s)) ∧
    (∀ o : OptNode, sizeOf o < k → ∀ s l0, visitOpt o (prependL l0 s) = addL l0 (visitOpt o s)) := by
  intro k
  induction k with
  | zero =>
    refine ⟨?_, ?_, ?_, ?_, ?_⟩ <;>
      (intro x hsize; exact absurd hsize (Nat.not_lt_zero _))
  | succ k ih =>
    obtain ⟨ihV, ihT, ihS, ihE, ihO⟩ := ih
    refine ⟨?_, ?_, ?_, ?_, ?_⟩
    · -- visit
      intro n hsize s l0
      cases n with
      | FileAST l =>
        have hk := hsize; simp_arith at hk
        rw [visit_fileAST, visit_fileAST, ihT l (by omega)]
        refine spStV l0 _ _ ?_
        intro t; simp
      | FuncDef name params body =>
        have hk := hsize; simp_arith at hk
        rw [visit_funcDef, visit_funcDef]
        simp only [indent_prependL, emit_prependL, incIndent_prependL]
        rw [ihV body (by omega)]
        refine spVV l0 _ _ ?_
        intro v t; simp [decIndent_prependL]
      | Compound items =>
        have hk := hsize; simp_arith at hk
        rw [visit_compound, visit_compound, ihS items (by omega)]
        refine spStV l0 _ _ ?_
        intro t; simp
      | DeclVar name init =>
        rcases init with _ | e
        · rw [visit_declVar_none, visit_declVar_none]; simp
        · have hk := hsize; simp_arith at hk
          rw [visit_declVar_some, visit_declVar_some, ihV e (by omega)]
          refine spVV l0 _ _ ?_
          intro v t; simp
      | DeclArr name dim =>
        have hk := hsize; simp_arith at hk
        rw [visit_declArr, visit_declArr, ihV dim (by omega)]
        refine spVV l0 _ _ ?_
        intro v t; simp
      | DeclOther name => rw [visit_declOther, visit_declOther]; simp
      | Assignment op lv rv =>
        have hk := hsize; simp_arith at hk
        rw [visit_assignment, visit_assignment, ihV lv (by omega)]
        refine spVV l0 _ _ ?_
        intro v t
        rw [ihV rv (by omega)]
        refine spVV l0 _ _ ?_
        intro v2 t2; simp
      | Return expr =>
        have hk := hsize; simp_arith at hk
        rw [visit_return, visit_return, ihO expr (by omega)]
        refine spVV l0 _ _ ?_
        intro v t; simp
      | If cond iftrue iffalse =>
        rcases iffalse with _ | e
        · have hk := hsize; simp_arith at hk
          rw [visit_if_noElse, visit_if_noElse, ihV cond (by omega)]
          refine spVV l0 _ _ ?_
          intro c t
          simp only [indent_prependL, emit_prependL, incIndent_prependL]
          rw [ihV iftrue (by omega)]
          refine spVV l0 _ _ ?_
          intro v2 t2; simp [decIndent_prependL]
        · have hk := hsize; simp_arith at hk
          rw [visit_if_else, visit_if_else, ihV cond (by omega)]
          refine spVV l0 _ _ ?_
          intro c t
          simp only [indent_prependL, emit_prependL, incIndent_prependL]
          rw [ihV iftrue (by omega)]
          refine spVV l0 _ _ ?_
          intro v2 t2
          simp only [indent_prependL, emit_prependL, incIndent_prependL, decIndent_prependL]
          rw [ihV e (by omega)]
          refine spVV l0 _ _ ?_
          intro v3 t3; simp [decIndent_prependL]
      | While cond stmt =>
        have hk := hsize; simp_arith at hk
        rw [visit_while, visit_while, ihV cond (by omega)]
        refine spVV l0 _ _ ?_
        intro c t
        simp only [indent_prependL, emit_prependL, incIndent_prependL]
        rw [ihV stmt (by omega)]
        refine spVV l0 _ _ ?_
        intro v2 t2; simp [decIndent_prependL]
      | For i cond nx stmt =>
        rcases forShape i cond with ⟨op, lv, rv, bl, bop, rr, hi, hc⟩ | ⟨⟨op, lv, rv, hi⟩, hc⟩ | hi
        · subst hi; subst hc
          have hk := hsize; simp_arith at hk
          rw [visit_for_full, visit_for_full, ihV lv (by omega)]
          refine spVV l0 _ _ ?_
          intro var t
          rw [ihV rv (by omega)]
          refine spVV l0 _ _ ?_
          intro start t2
          rw [ihV rr (by omega)]
          refine spVV l0 _ _ ?_
          intro stop t3
          simp only [indent_prependL, emit_prependL, incIndent_prependL]
          rw [ihV stmt (by omega)]
          refine spVV l0 _ _ ?_
          intro v4 t4; simp [decIndent_prependL]
        · subst hi
          have hk := hsize; simp_arith at hk
          rw [visit_for_badCond _ _ _ _ _ _ _ hc, visit_for_badCond _ _ _ _ _ _ _ hc,
            ihV lv (by omega)]
          refine spVV l0 _ _ ?_
          intro v t
          rw [ihV rv (by omega)]
          refine spVV l0 _ _ ?_
          intro v2 t2; rfl
        · rw [visit_for_badInit _ _ _ _ _ hi, visit_for_badInit _ _ _ _ _ hi]; rfl
      | ArrayRef name subscript =>
        have hk := hsize; simp_arith at hk
        rw [visit_arrayRef, visit_arrayRef, ihV name (by omega)]
        refine spVV l0 _ _ ?_
        intro v t
        rw [ihV subscript (by omega)]
        refine spVV l0 _ _ ?_
        intro v2 t2; simp
      | Switch cond stmt =>
        have hk := hsize; simp_arith at hk
        rw [visit_switch, visit_switch, ihV cond (by omega)]
        refine spVV l0 _ _ ?_
        intro v t
        simp only [indent_prependL, emit_prependL, setSwitchCtx_prependL]
        rw [ihV stmt (by omega)]
        refine spVV l0 _ _ ?_
        intro v2 t2; simp [clearSwitchVar_prependL]
      | Case expr stmts =>
        have hk := hsize; simp_arith at hk
        rw [visit_case, visit_case, ihV expr (by omega)]
        refine spVV l0 _ _ ?_
        intro v t
        simp only [indent_prependL, emit_prependL, setCaseSeen_prependL, incIndent_prependL,
          prependL_case_seen, prependL_switch_var]
        rw [ihS stmts (by omega)]
        refine spStV l0 _ _ ?_
        intro t2; simp [decIndent_prependL]
      | Default stmts =>
        have hk := hsize; simp_arith at hk
        rw [visit_default, visit_default]
        simp only [indent_prependL, emit_prependL, incIndent_prependL]
        rw [ihS stmts (by omega)]
        refine spStV l0 _ _ ?_
        intro t; simp [decIndent_prependL]
      | FuncCall name args =>
        rcases args with _ | exprs
        · have hk := hsize; simp_arith at hk
          rw [visit_funcCall_noArgs, visit_funcCall_noArgs, ihV name (by omega)]
          refine spVV l0 _ _ ?_
          intro fn t
          by_cases hfn : fn = Option.some "printf" <;> simp [hfn]
        · have hk := hsize; simp_arith at hk
          rw [visit_funcCall_args, visit_funcCall_args, ihV name (by omega)]
          refine spVV l0 _ _ ?_
          intro fn t
          rw [ihE exprs (by omega)]
          refine spPV l0 _ _ ?_
          intro vs t2
          cases hall : allSome vs with
          | none => rfl
          | some ss =>
            by_cases hfn : fn = Option.some "printf" <;> simp [hfn]
      | ID name => rw [visit_id, visit_id]; simp
      | Constant value => rw [visit_constant, visit_constant]; simp
      | BinaryOp left op right =>
        have hk := hsize; simp_arith at hk
        rw [visit_binaryOp, visit_binaryOp, ihV left (by omega)]
        refine spVV l0 _ _ ?_
        intro v t
        rw [ihV right (by omega)]
        refine spVV l0 _ _ ?_
        intro v2 t2; simp
      | UnaryOp op expr =>
        have hk := hsize; simp_arith at hk
        rw [visit_unaryOp, visit_unaryOp, ihV expr (by omega)]
        refine spVV l0 _ _ ?_
        intro v t; simp
      | Other kind => rw [visit_other, visit_other]; simp
    · -- visitTop
      intro l hsize s l0
      cases l with
      | nil => rw [visitTop_nil, visitTop_nil]; simp
      | cons n rest =>
        have hk := hsize; simp_arith at hk
        rw [visitTop_cons, visitTop_cons, ihV n (by omega)]
        refine spVSt l0 _ _ ?_
        intro v t
        exact ihT rest (by omega) t l0
    · -- visitStmts
      intro l hsize s l0
      cases l with
      | nil => rw [visitStmts_nil, visitStmts_nil]; simp
      | cons stm rest =>
        have hk := hsize; simp_arith at hk
        rw [visitStmts_cons, visitStmts_cons, ihV stm (by omega)]
        refine spVSt l0 _ _ ?_
        intro code t
        rw [appendTruthy_prependL]
        exact ihS rest (by omega) _ l0
    · -- visitExprList
      intro l hsize s l0
      cases l with
      | nil => rw [visitExprList_nil, visitExprList_nil]; simp
      | cons e rest =>
        have hk := hsize; simp_arith at hk
        rw [visitExprList_cons, visitExprList_cons, ihV e (by omega)]
        refine spVP l0 _ _ ?_
        intro v t
        rw [ihE rest (by omega)]
        refine spPP l0 _ _ ?_
        intro vs t2; simp
    · -- visitOpt
      intro o hsize s l0
      cases o with
      | none => rw [visitOpt_none, visitOpt_none]; simp
      | some e =>
        have hk := hsize; simp_arith at hk
        rw [visitOpt_some, visitOpt_some]
        exact ihV e (by omega) s l0

/-- Corollary of `prependInv` for `visit`. -/
theorem visit_prependL (n : Node) (s : St) (l0 : List String) :
    visit n (prependL l0 s) = addL l0 (visit n s) :=
  (prependInv (sizeOf n + 1)).1 n (Nat.lt_succ_self _) s l0

/-- Corollary of `prependInv` for `visitTop`. -/
theorem visitTop_prependL (l : NodeList) (s : St) (l0 : List String) :
    visitTop l (prependL l0 s) = addLSt l0 (visitTop l s) :=
  (prependInv (sizeOf l + 1)).2.1 l (Nat.lt_succ_self _) s l0

/-- Corollary of `prependInv` for `visitStmts`. -/
theorem visitStmts_prependL (l : NodeList) (s : St) (l0 : List String) :
    visitStmts l (prependL l0 s) = addLSt l0 (visitStmts l s) :=
  (prependInv (sizeOf l + 1)).2.2.1 l (Nat.lt_succ_self _) s l0

/-- Every state is its own line buffer prepended to its zeroed form. -/
theorem st_eq_prependL_zeroL (s : St) : s = prependL s.lines (zeroL s) := by
  cases s; simp [prependL, zeroL]

/-- A successful visit only appends to the line buffer: the final buffer is
the entry buffer followed by the lines of the run from the zeroed state. -/
theorem visit_lines_append (n : Node) (st : St) (r : Option String) (st' : St)
    (h : visit n st = .ok (r, st')) :
    ∃ d, st'.lines = st.lines ++ d ∧ visit n (zeroL st) = .ok (r, { st' with lines := d }) := by
  have hp := visit_prependL n (zeroL st) st.lines
  rw [← st_eq_prependL_zeroL, h] at hp
  cases hz : visit n (zeroL st) with
  | error e => rw [hz] at hp; exact absurd hp (by simp [addL])
  | ok p =>
    obtain ⟨v, ⟨tl, ti, tsv, tcs⟩⟩ := p
    rw [hz] at hp
    simp only [addL_ok] at hp
    cases hp
    exact ⟨tl, rfl, by simp [hz, prependL]⟩

/-! ## Runs that differ only in the per-switch context

A switch-well-formed node (`wfNode`) reads `switch_var`/`case_seen` only
under a `Switch` that has just (re)written them, so two runs from states
agreeing on `indent_level` and `lines` — but not necessarily on the
per-switch context — emit the same lines and return the same value. -/

@[simp] theorem svcs_emit (s : St) (l : String) : svcs (emit s l) = svcs s := rfl
@[simp] theorem svcs_incIndent (s : St) : svcs (incIndent s) = svcs s := rfl
@[simp] theorem svcs_decIndent (s : St) : svcs (decIndent s) = svcs s := rfl
@[simp] theorem svcs_setSwitchCtx (s : St) (v : Option String) :
    svcs (setSwitchCtx s v) = (v, false) := rfl
@[simp] theorem svcs_clearSwitchVar (s : St) :
    svcs (clearSwitchVar s) = (Option.none, s.case_seen) := rfl
@[simp] theorem svcs_setCaseSeen (s : St) :
    svcs (setCaseSeen s) = (s.switch_var, true) := rfl
@[simp] theorem svcs_prependL (l0 : List String) (t : St) : svcs (prependL l0 t) = svcs t := rfl
@[simp] theorem svcs_zeroL (s : St) : svcs (zeroL s) = svcs s := rfl

theorem svcs_appendTruthy (s : St) (code : Option String) :
    svcs (appendTruthy s code) = svcs s := by
  rcases code with _ | c
  · rfl
  · by_cases hc : c = "" <;> simp [appendTruthy, hc]

/-- After two related runs, the per-switch context pairs either agree with
each other (some switch wrote them) or each agrees with its own entry
state (nothing wrote them). -/
def ctxRel (a1 a2 b1 b2 : Option String × Bool) : Prop :=
  b1 = b2 ∨ (b1 = a1 ∧ b2 = a2)

theorem ctxRel_trans (a1 a2 b1 b2 c1 c2 : Option String × Bool)
    (h1 : ctxRel a1 a2 b1 b2) (h2 : ctxRel b1 b2 c1 c2) : ctxRel a1 a2 c1 c2 := by
  rcases h2 with h2 | ⟨ha, hb⟩
  · subst h2
    rcases h1 with h1 | ⟨hc, hd⟩
    · left; rfl
    · left; rfl
  · rcases h1 with h1 | ⟨hc, hd⟩
    · left; rw [ha, hb, h1]
    · right; exact ⟨ha.trans hc, hb.trans hd⟩

/-- Correspondence of two visitor outcomes from context-agnostic runs. -/
def RelV (x1 x2 : VisitRes) (s1 s2 : St) : Prop :=
  match x1, x2 with
  | .error e1, .error e2 => e1 = e2
  | .ok (v1, t1), .ok (v2, t2) =>
      v1 = v2 ∧ t1.lines = t2.lines ∧ t1.indent_level = t2.indent_level ∧
        ctxRel (svcs s1) (svcs s2) (svcs t1) (svcs t2)
  | _, _ => False

/-- `RelV` for the loop results. -/
def RelT (x1 x2 : Except String St) (s1 s2 : St) : Prop :=
  match x1, x2 with
  | .error e1, .error e2 => e1 = e2
  | .ok t1, .ok t2 =>
      t1.lines = t2.lines ∧ t1.indent_level = t2.indent_level ∧
        ctxRel (svcs s1) (svcs s2) (svcs t1) (svcs t2)
  | _, _ => False

/-- `RelV` for the argument-list results. -/
def RelE (x1 x2 : Except String (List (Option String) × St)) (s1 s2 : St) : Prop :=
  match x1, x2 with
  | .error e1, .error e2 => e1 = e2
  | .ok (vs1, t1), .ok (vs2, t2) =>
      vs1 = vs2 ∧ t1.lines = t2.lines ∧ t1.indent_level = t2.indent_level ∧
        ctxRel (svcs s1) (svcs s2) (svcs t1) (svcs t2)
  | _, _ => False

theorem stExt (a b : St) (h1 : a.lines = b.lines) (h2 : a.indent_level = b.indent_level)
    (h3 : a.switch_var = b.switch_var) (h4 : a.case_seen = b.case_seen) : a = b := by
  cases a; cases b; simp_all

theorem indent_congr (a b : St) (h : a.indent_level = b.indent_level) :
    indent a = indent b := by
  simp [indent, h]

theorem RelV_refl (x : VisitRes) (s1 s2 : St) : RelV x x s1 s2 := by
  cases x with
  | error e => exact rfl
  | ok p =>
    obtain ⟨v, t⟩ := p
    exact ⟨rfl, rfl, rfl, Or.inl rfl⟩

theorem appendTruthy_lines_congr (t1 t2 : St) (c : Option String)
    (hl : t1.lines = t2.lines) (hi : t1.indent_level = t2.indent_level) :
    (appendTruthy t1 c).lines = (appendTruthy t2 c).lines := by
  rcases c with _ | c
  · exact hl
  · by_cases hc : c = "" <;> simp [appendTruthy, hc, hl, indent_congr t1 t2 hi]

/-- Size-bounded conjunction of the context-agnosticism statements: on a
switch-well-formed input, two runs from states with equal line buffers and
equal indentation — but arbitrary per-switch context — correspond. -/
theorem wfDet : ∀ k : Nat,
    (∀ n : Node, sizeOf n < k → wfNode n = true → ∀ s1 s2 : St,
      s1.indent_level = s2.indent_level → s1.lines = s2.lines →
      RelV (visit n s1) (visit n s2) s1 s2) ∧
    (∀ l : NodeList, sizeOf l < k → wfList l = true → ∀ s1 s2 : St,
      s1.indent_level = s2.indent_level → s1.lines = s2.lines →
      RelT (visitTop l s1) (visitTop l s2) s1 s2) ∧
    (∀ l : NodeList, sizeOf l < k → wfList l = true → ∀ s1 s2 : St,
      s1.indent_level = s2.indent_level → s1.lines = s2.lines →
      RelT (visitStmts l s1) (visitStmts l s2) s1 s2) ∧
    (∀ l : NodeList, sizeOf l < k → wfList l = true → ∀ s1 s2 : St,
      s1.indent_level = s2.indent_level → s1.lines = s2.lines →
      RelE (visitExprList l s1) (visitExprList l s2) s1 s2) ∧
    (∀ o : OptNode, sizeOf o < k → wfOpt o = true → ∀ s1 s2 : St,
      s1.indent_level = s2.indent_level → s1.lines = s2.lines →
      RelV (visitOpt o s1) (visitOpt o s2) s1 s2) := by
  intro k
  induction k with
  | zero =>
    refine ⟨?_, ?_, ?_, ?_, ?_⟩ <;>
      (intro x hsize; exact absurd hsize (Nat.not_lt_zero _))
  | succ k ih =>
    obtain ⟨ihV, ihT, ihS, ihE, ihO⟩ := ih
    refine ⟨?_, ?_, ?_, ?_, ?_⟩
    · -- visit
      intro n hsize hwf s1 s2 hind hlines
      cases n with
      | FileAST l =>
        have hk := hsize; simp_arith at hk
        have hw : wfList l = true := hwf
        rw [visit_fileAST, visit_fileAST]
        have R := ihT l (by omega) hw s1 s2 hind hlines
        cases hx1 : visitTop l s1 with
        | error e1 =>
          cases hx2 : visitTop l s2 with
          | error e2 => rw [hx1, hx2] at R; exact R
          | ok t2 => rw [hx1, hx2] at R; exact R.elim
        | ok t1 =>
          cases hx2 : visitTop l s2 with
          | error e2 => rw [hx1, hx2] at R; exact R.elim
          | ok t2 =>
            rw [hx1, hx2] at R
            exact ⟨rfl, R.1, R.2.1, R.2.2⟩
      | FuncDef name params body =>
        have hk := hsize; simp_arith at hk
        have hw : wfNode body = true := hwf
        rw [visit_funcDef, visit_funcDef]
        have hhdr : indent s1 ++ "def " ++ name ++ "(" ++ get_func_args params ++ "):" =
            indent s2 ++ "def " ++ name ++ "(" ++ get_func_args params ++ "):" := by
          rw [indent_congr s1 s2 hind]
        have R := ihV body (by omega) hw
          (incIndent (emit s1 (indent s1 ++ "def " ++ name ++ "(" ++ get_func_args params ++ "):")))
          (incIndent (emit s2 (indent s2 ++ "def " ++ name ++ "(" ++ get_func_args params ++ "):")))
          (by simp [hind]) (by simp [hlines, hhdr])
        cases hx1 : visit body (incIndent (emit s1
            (indent s1 ++ "def " ++ name ++ "(" ++ get_func_args params ++ "):"))) with
        | error e1 =>
          cases hx2 : visit body (incIndent (emit s2
              (indent s2 ++ "def " ++ name ++ "(" ++ get_func_args params ++ "):"))) with
          | error e2 => rw [hx1, hx2] at R; exact R
          | ok p2 => rw [hx1, hx2] at R; exact R.elim
        | ok p1 =>
          cases hx2 : visit body (incIndent (emit s2
              (indent s2 ++ "def " ++ name ++ "(" ++ get_func_args params ++ "):"))) with
          | error e2 => rw [hx1, hx2] at R; exact R.elim
          | ok p2 =>
            obtain ⟨v1, t1⟩ := p1; obtain ⟨v2, t2⟩ := p2
            rw [hx1, hx2] at R
            simp only []
            obtain ⟨hv, hl1, hi1, hc1⟩ := R
            simp only [svcs_incIndent, svcs_emit] at hc1
            exact ⟨rfl, by simpa using hl1, by simpa using hi1, by simpa using hc1⟩
      | Compound items =>
        have hk := hsize; simp_arith at hk
        have hw : wfList items = true := hwf
        rw [visit_compound, visit_compound]
        have R := ihS items (by omega) hw s1 s2 hind hlines
        cases hx1 : visitStmts items s1 with
        | error e1 =>
          cases hx2 : visitStmts items s2 with
          | error e2 => rw [hx1, hx2] at R; exact R
          | ok t2 => rw [hx1, hx2] at R; exact R.elim
        | ok t1 =>
          cases hx2 : visitStmts items s2 with
          | error e2 => rw [hx1, hx2] at R; exact R.elim
          | ok t2 =>
            rw [hx1, hx2] at R
            exact ⟨rfl, R.1, R.2.1, R.2.2⟩
      | DeclVar name init =>
        rcases init with _ | e
        · rw [visit_declVar_none, visit_declVar_none]
          exact ⟨rfl, hlines, hind, Or.inr ⟨rfl, rfl⟩⟩
        · have hk := hsize; simp_arith at hk
          have hw : wfNode e = true := hwf
          rw [visit_declVar_some, visit_declVar_some]
          have R := ihV e (by omega) hw s1 s2 hind hlines
          cases hx1 : visit e s1 with
          | error e1 =>
            cases hx2 : visit e s2 with
            | error e2 => rw [hx1, hx2] at R; exact R
            | ok p2 => rw [hx1, hx2] at R; exact R.elim
          | ok p1 =>
            cases hx2 : visit e s2 with
            | error e2 => rw [hx1, hx2] at R; exact R.elim
            | ok p2 =>
              obtain ⟨v1, t1⟩ := p1; obtain ⟨v2, t2⟩ := p2
              rw [hx1, hx2] at R
              simp only []
              obtain ⟨hv, hl1, hi1, hc1⟩ := R
              subst hv
              exact ⟨rfl, hl1, hi1, hc1⟩
      | DeclArr name dim =>
        have hk := hsize; simp_arith at hk
        have hw : wfNode dim = true := hwf
        rw [visit_declArr, visit_declArr]
        have R := ihV dim (by omega) hw s1 s2 hind hlines
        cases hx1 : visit dim s1 with
        | error e1 =>
          cases hx2 : visit dim s2 with
          | error e2 => rw [hx1, hx2] at R; exact R
          | ok p2 => rw [hx1, hx2] at R; exact R.elim
        | ok p1 =>
          cases hx2 : visit dim s2 with
          | error e2 => rw [hx1, hx2] at R; exact R.elim
          | ok p2 =>
            obtain ⟨v1, t1⟩ := p1; obtain ⟨v2, t2⟩ := p2
            rw [hx1, hx2] at R
            simp only []
            obtain ⟨hv, hl1, hi1, hc1⟩ := R
            subst hv
            exact ⟨rfl, hl1, hi1, hc1⟩
      | DeclOther name =>
        rw [visit_declOther, visit_declOther]
        exact ⟨rfl, hlines, hind, Or.inr ⟨rfl, rfl⟩⟩
      | Assignment op lv rv =>
        have hk := hsize; simp_arith at hk
        have hw : (wfNode lv && wfNode rv) = true := hwf
        rw [Bool.and_eq_true] at hw
        obtain ⟨hw1, hw2⟩ := hw
        rw [visit_assignment, visit_assignment]
        have R := ihV lv (by omega) hw1 s1 s2 hind hlines
        cases hx1 : visit lv s1 with
        | error e1 =>
          cases hx2 : visit lv s2 with
          | error e2 => rw [hx1, hx2] at R; exact R
          | ok p2 => rw [hx1, hx2] at R; exact R.elim
        | ok p1 =>
          cases hx2 : visit lv s2 with
          | error e2 => rw [hx1, hx2] at R; exact R.elim
          | ok p2 =>
            obtain ⟨v1, t1⟩ := p1; obtain ⟨v2, t2⟩ := p2
            rw [hx1, hx2] at R
            simp only []
            obtain ⟨hv, hl1, hi1, hc1⟩ := R
            subst hv
            have R2 := ihV rv (by omega) hw2 t1 t2 hi1 hl1
            cases hy1 : visit rv t1 with
            | error e1 =>
              cases hy2 : visit rv t2 with
              | error e2 => rw [hy1, hy2] at R2; exact R2
              | ok q2 => rw [hy1, hy2] at R2; exact R2.elim
            | ok q1 =>
              cases hy2 : visit rv t2 with
              | error e2 => rw [hy1, hy2] at R2; exact R2.elim
              | ok q2 =>
                obtain ⟨w1, u1⟩ := q1; obtain ⟨w2, u2⟩ := q2
                rw [hy1, hy2] at R2
                simp only []
                obtain ⟨hv2, hl2, hi2, hc2⟩ := R2
                subst hv2
                exact ⟨rfl, hl2, hi2, ctxRel_trans _ _ _ _ _ _ hc1 hc2⟩
      | Return expr =>
        have hk := hsize; simp_arith at hk
        have hw : wfOpt expr = true := hwf
        rw [visit_return, visit_return]
        have R := ihO expr (by omega) hw s1 s2 hind hlines
        cases hx1 : visitOpt expr s1 with
        | error e1 =>
          cases hx2 : visitOpt expr s2 with
          | error e2 => rw [hx1, hx2] at R; exact R
          | ok p2 => rw [hx1, hx2] at R; exact R.elim
        | ok p1 =>
          cases hx2 : visitOpt expr s2 with
          | error e2 => rw [hx1, hx2] at R; exact R.elim
          | ok p2 =>
            obtain ⟨v1, t1⟩ := p1; obtain ⟨v2, t2⟩ := p2
            rw [hx1, hx2] at R
            simp only []
            obtain ⟨hv, hl1, hi1, hc1⟩ := R
            subst hv
            exact ⟨rfl, hl1, hi1, hc1⟩
      | If cond iftrue iffalse =>
        rcases iffalse with _ | e
        · have hk := hsize; simp_arith at hk
          have hw : (wfNode cond && wfNode iftrue && wfOpt OptNode.none) = true := hwf
          simp only [Bool.and_eq_true] at hw
          obtain ⟨⟨hw1, hw2⟩, -⟩ := hw
          rw [visit_if_noElse, visit_if_noElse]
          have R := ihV cond (by omega) hw1 s1 s2 hind hlines
          cases hx1 : visit cond s1 with
          | error e1 =>
            cases hx2 : visit cond s2 with
            | error e2 => rw [hx1, hx2] at R; exact R
            | ok p2 => rw [hx1, hx2] at R; exact R.elim
          | ok p1 =>
            cases hx2 : visit cond s2 with
            | error e2 => rw [hx1, hx2] at R; exact R.elim
            | ok p2 =>
              obtain ⟨v1, t1⟩ := p1; obtain ⟨v2, t2⟩ := p2
              rw [hx1, hx2] at R
              simp only []
              obtain ⟨hv, hl1, hi1, hc1⟩ := R
              subst hv
              have R2 := ihV iftrue (by omega) hw2
                (incIndent (emit t1 (indent t1 ++ "if " ++ pyStr v1 ++ ":")))
                (incIndent (emit t2 (indent t2 ++ "if " ++ pyStr v1 ++ ":")))
                (by simp [hi1]) (by simp [hl1, indent_congr t1 t2 hi1])
              cases hy1 : visit iftrue (incIndent (emit t1 (indent t1 ++ "if " ++ pyStr v1 ++ ":"))) with
              | error e1 =>
                cases hy2 : visit iftrue (incIndent (emit t2 (indent t2 ++ "if " ++ pyStr v1 ++ ":"))) with
                | error e2 => rw [hy1, hy2] at R2; exact R2
                | ok q2 => rw [hy1, hy2] at R2; exact R2.elim
              | ok q1 =>
                cases hy2 : visit iftrue (incIndent (emit t2 (indent t2 ++ "if " ++ pyStr v1 ++ ":"))) with
                | error e2 => rw [hy1, hy2] at R2; exact R2.elim
                | ok q2 =>
                  obtain ⟨w1, u1⟩ := q1; obtain ⟨w2, u2⟩ := q2
                  rw [hy1, hy2] at R2
                  simp only []
                  obtain ⟨hv2, hl2, hi2, hc2⟩ := R2
                  simp only [svcs_incIndent, svcs_emit] at hc2
                  exact ⟨rfl, by simpa using hl2, by simpa using hi2,
                    ctxRel_trans _ _ _ _ _ _ hc1 (by simpa using hc2)⟩
        · have hk := hsize; simp_arith at hk
          have hw : (wfNode cond && wfNode iftrue && wfOpt (OptNode.some e)) = true := hwf
          simp only [Bool.and_eq_true] at hw
          obtain ⟨⟨hw1, hw2⟩, hw3⟩ := hw
          have hw3' : wfNode e = true := hw3
          rw [visit_if_else, visit_if_else]
          have R := ihV cond (by omega) hw1 s1 s2 hind hlines
          cases hx1 : visit cond s1 with
          | error e1 =>
            cases hx2 : visit cond s2 with
            | error e2 => rw [hx1, hx2] at R; exact R
            | ok p2 => rw [hx1, hx2] at R; exact R.elim
          | ok p1 =>
            cases hx2 : visit cond s2 with
            | error e2 => rw [hx1, hx2] at R; exact R.elim
            | ok p2 =>
              obtain ⟨v1, t1⟩ := p1; obtain ⟨v2, t2⟩ := p2
              rw [hx1, hx2] at R
              simp only []
              obtain ⟨hv, hl1, hi1, hc1⟩ := R
              subst hv
              have R2 := ihV iftrue (by omega) hw2
                (incIndent (emit t1 (indent t1 ++ "if " ++ pyStr v1 ++ ":")))
                (incIndent (emit t2 (indent t2 ++ "if " ++ pyStr v1 ++ ":")))
                (by simp [hi1]) (by simp [hl1, indent_congr t1 t2 hi1])
              cases hy1 : visit iftrue (incIndent (emit t1 (indent t1 ++ "if " ++ pyStr v1 ++ ":"))) with
              | error e1 =>
                cases hy2 : visit iftrue (incIndent (emit t2 (indent t2 ++ "if " ++ pyStr v1 ++ ":"))) with
                | error e2 => rw [hy1, hy2] at R2; exact R2
                | ok q2 => rw [hy1, hy2] at R2; exact R2.elim
              | ok q1 =>
                cases hy2 : visit iftrue (incIndent (emit t2 (indent t2 ++ "if " ++ pyStr v1 ++ ":"))) with
                | error e2 => rw [hy1, hy2] at R2; exact R2.elim
                | ok q2 =>
                  obtain ⟨w1, u1⟩ := q1; obtain ⟨w2, u2⟩ := q2
                  rw [hy1, hy2] at R2
                  simp only []
                  obtain ⟨hv2, hl2, hi2, hc2⟩ := R2
                  simp only [svcs_incIndent, svcs_emit] at hc2
                  have hl2' : u1.lines = u2.lines := hl2
                  have hi2' : u1.indent_level = u2.indent_level := hi2
                  have R3 := ihV e (by omega) hw3'
                    (incIndent (emit (decIndent u1) (indent (decIndent u1) ++ "else:")))
                    (incIndent (emit (decIndent u2) (indent (decIndent u2) ++ "else:")))
                    (by simp [hi2'])
                    (by simp [hl2', indent_congr (decIndent u1) (decIndent u2) (by simp [hi2'])])
                  cases hz1 : visit e (incIndent (emit (decIndent u1) (indent (decIndent u1) ++ "else:"))) with
                  | error e1 =>
                    cases hz2 : visit e (incIndent (emit (decIndent u2) (indent (decIndent u2) ++ "else:"))) with
                    | error e2 => rw [hz1, hz2] at R3; exact R3
                    | ok q3 => rw [hz1, hz2] at R3; exact R3.elim
                  | ok q3 =>
                    cases hz2 : visit e (incIndent (emit (decIndent u2) (indent (decIndent u2) ++ "else:"))) with
                    | error e2 => rw [hz1, hz2] at R3; exact R3.elim
                    | ok q4 =>
                      obtain ⟨w3, u3⟩ := q3; obtain ⟨w4, u4⟩ := q4
                      rw [hz1, hz2] at R3
                      simp only []
                      obtain ⟨hv3, hl3, hi3, hc3⟩ := R3
                      simp only [svcs_incIndent, svcs_emit, svcs_decIndent] at hc3
                      refine ⟨rfl, by simpa using hl3, by simpa using hi3, ?_⟩
                      have hstep := ctxRel_trans _ _ _ _ _ _ hc1 (by simpa using hc2)
                      exact ctxRel_trans _ _ _ _ _ _ hstep (by simpa using hc3)
      | While cond stmt =>
        have hk := hsize; simp_arith at hk
        have hw : (wfNode cond && wfNode stmt) = true := hwf
        rw [Bool.and_eq_true] at hw
        obtain ⟨hw1, hw2⟩ := hw
        rw [visit_while, visit_while]
        have R := ihV cond (by omega) hw1 s1 s2 hind hlines
        cases hx1 : visit cond s1 with
        | error e1 =>
          cases hx2 : visit cond s2 with
          | error e2 => rw [hx1, hx2] at R; exact R
          | ok p2 => rw [hx1, hx2] at R; exact R.elim
        | ok p1 =>
          cases hx2 : visit cond s2 with
          | error e2 => rw [hx1, hx2] at R; exact R.elim
          | ok p2 =>
            obtain ⟨v1, t1⟩ := p1; obtain ⟨v2, t2⟩ := p2
            rw [hx1, hx2] at R
            simp only []
            obtain ⟨hv, hl1, hi1, hc1⟩ := R
            subst hv
            have R2 := ihV stmt (by omega) hw2
              (incIndent (emit t1 (indent t1 ++ "while " ++ pyStr v1 ++ ":")))
              (incIndent (emit t2 (indent t2 ++ "while " ++ pyStr v1 ++ ":")))
              (by simp [hi1]) (by simp [hl1, indent_congr t1 t2 hi1])
            cases hy1 : visit stmt (incIndent (emit t1 (indent t1 ++ "while " ++ pyStr v1 ++ ":"))) with
            | error e1 =>
              cases hy2 : visit stmt (incIndent (emit t2 (indent t2 ++ "while " ++ pyStr v1 ++ ":"))) with
              | error e2 => rw [hy1, hy2] at R2; exact R2
              | ok q2 => rw [hy1, hy2] at R2; exact R2.elim
            | ok q1 =>
              cases hy2 : visit stmt (incIndent (emit t2 (indent t2 ++ "while " ++ pyStr v1 ++ ":"))) with
              | error e2 => rw [hy1, hy2] at R2; exact R2.elim
              | ok q2 =>
                obtain ⟨w1, u1⟩ := q1; obtain ⟨w2, u2⟩ := q2
                rw [hy1, hy2] at R2
                simp only []
                obtain ⟨hv2, hl2, hi2, hc2⟩ := R2
                simp only [svcs_incIndent, svcs_emit] at hc2
                exact ⟨rfl, by simpa using hl2, by simpa using hi2,
                  ctxRel_trans _ _ _ _ _ _ hc1 (by simpa using hc2)⟩
      | Other kind =>
        rw [visit_other, visit_other]
        exact ⟨rfl, hlines, hind, Or.inr ⟨rfl, rfl⟩⟩
      | ID name =>
        rw [visit_id, visit_id]
        exact ⟨rfl, hlines, hind, Or.inr ⟨rfl, rfl⟩⟩
      | Constant value =>
        rw [visit_constant, visit_constant]
        exact ⟨rfl, hlines, hind, Or.inr ⟨rfl, rfl⟩⟩
      | Case expr stmts => exact Bool.noConfusion hwf
      | Default stmts => exact Bool.noConfusion hwf
      | Switch cond stmt =>
        have hk := hsize; simp_arith at hk
        have hw1 : wfNode cond = true := hwf
        rw [visit_switch, visit_switch]
        have R := ihV cond (by omega) hw1 s1 s2 hind hlines
        cases hx1 : visit cond s1 with
        | error e1 =>
          cases hx2 : visit cond s2 with
          | error e2 => rw [hx1, hx2] at R; exact R
          | ok p2 => rw [hx1, hx2] at R; exact R.elim
        | ok p1 =>
          cases hx2 : visit cond s2 with
          | error e2 => rw [hx1, hx2] at R; exact R.elim
          | ok p2 =>
            obtain ⟨v1, t1⟩ := p1; obtain ⟨v2, t2⟩ := p2
            rw [hx1, hx2] at R
            simp only []
            obtain ⟨hv, hl1, hi1, hc1⟩ := R
            subst hv
            have hX : setSwitchCtx (emit t1 (indent t1 ++ "# switch(" ++ pyStr v1 ++ ") equivalent")) v1 =
                setSwitchCtx (emit t2 (indent t2 ++ "# switch(" ++ pyStr v1 ++ ") equivalent")) v1 := by
              refine stExt _ _ ?_ ?_ ?_ ?_ <;>
                simp [hl1, hi1, indent_congr t1 t2 hi1]
            rw [hX]
            cases hy : visit stmt (setSwitchCtx
                (emit t2 (indent t2 ++ "# switch(" ++ pyStr v1 ++ ") equivalent")) v1) with
            | error e => exact rfl
            | ok q =>
              obtain ⟨vy, uy⟩ := q
              simp only []
              exact ⟨rfl, rfl, rfl, Or.inl rfl⟩
      | For i cond nx stmt =>
        rcases forShape i cond with ⟨op, lv, rv, bl, bop, rr, hi, hc⟩ | ⟨⟨op, lv, rv, hi⟩, hc⟩ | hi
        · subst hi; subst hc
          have hk := hsize; simp_arith at hk
          have hw : ((wfNode lv && wfNode rv) && (wfNode bl && wfNode rr) &&
              wfOpt nx && wfNode stmt) = true := hwf
          simp only [Bool.and_eq_true] at hw
          obtain ⟨⟨⟨⟨hwlv, hwrv⟩, ⟨hwbl, hwrr⟩⟩, hwnx⟩, hwstmt⟩ := hw
          rw [visit_for_full, visit_for_full]
          have R := ihV lv (by omega) hwlv s1 s2 hind hlines
          cases hx1 : visit lv s1 with
          | error e1 =>
            cases hx2 : visit lv s2 with
            | error e2 => rw [hx1, hx2] at R; exact R
            | ok p2 => rw [hx1, hx2] at R; exact R.elim
          | ok p1 =>
            cases hx2 : visit lv s2 with
            | error e2 => rw [hx1, hx2] at R; exact R.elim
            | ok p2 =>
              obtain ⟨v1, t1⟩ := p1; obtain ⟨v2, t2⟩ := p2
              rw [hx1, hx2] at R
              simp only []
              obtain ⟨hv, hl1, hi1, hc1⟩ := R
              subst hv
              have R2 := ihV rv (by omega) hwrv t1 t2 hi1 hl1
              cases hy1 : visit rv t1 with
              | error e1 =>
                cases hy2 : visit rv t2 with
                | error e2 => rw [hy1, hy2] at R2; exact R2
                | ok q2 => rw [hy1, hy2] at R2; exact R2.elim
              | ok q1 =>
                cases hy2 : visit rv t2 with
                | error e2 => rw [hy1, hy2] at R2; exact R2.elim
                | ok q2 =>
                  obtain ⟨w1, u1⟩ := q1; obtain ⟨w2, u2⟩ := q2
                  rw [hy1, hy2] at R2
                  simp only []
                  obtain ⟨hv2, hl2, hi2, hc2⟩ := R2
                  subst hv2
                  have R3 := ihV rr (by omega) hwrr u1 u2 hi2 hl2
                  cases hz1 : visit rr u1 with
                  | error e1 =>
                    cases hz2 : visit rr u2 with
                    | error e2 => rw [hz1, hz2] at R3; exact R3
                    | ok q3 => rw [hz1, hz2] at R3; exact R3.elim
                  | ok q3 =>
                    cases hz2 : visit rr u2 with
                    | error e2 => rw [hz1, hz2] at R3; exact R3.elim
                    | ok q4 =>
                      obtain ⟨w3, u3⟩ := q3; obtain ⟨w4, u4⟩ := q4
                      rw [hz1, hz2] at R3
                      simp only []
                      obtain ⟨hv3, hl3, hi3, hc3⟩ := R3
                      subst hv3
                      have R4 := ihV stmt (by omega) hwstmt
                        (incIndent (emit u3 (indent u3 ++ "for " ++ pyStr v1 ++
                          " in range(" ++ pyStr w1 ++ ", " ++ pyStr w3 ++ "):")))
                        (incIndent (emit u4 (indent u4 ++ "for " ++ pyStr v1 ++
                          " in range(" ++ pyStr w1 ++ ", " ++ pyStr w3 ++ "):")))
                        (by simp [hi3]) (by simp [hl3, indent_congr u3 u4 hi3])
                      cases hw1 : visit stmt (incIndent (emit u3 (indent u3 ++ "for " ++ pyStr v1 ++
                          " in range(" ++ pyStr w1 ++ ", " ++ pyStr w3 ++ "):"))) with
                      | error e1 =>
                        cases hw2 : visit stmt (incIndent (emit u4 (indent u4 ++ "for " ++ pyStr v1 ++
                            " in range(" ++ pyStr w1 ++ ", " ++ pyStr w3 ++ "):"))) with
                        | error e2 => rw [hw1, hw2] at R4; exact R4
                        | ok q5 => rw [hw1, hw2] at R4; exact R4.elim
                      | ok q5 =>
                        cases hw2 : visit stmt (incIndent (emit u4 (indent u4 ++ "for " ++ pyStr v1 ++
                            " in range(" ++ pyStr w1 ++ ", " ++ pyStr w3 ++ "):"))) with
                        | error e2 => rw [hw1, hw2] at R4; exact R4.elim
                        | ok q6 =>
                          obtain ⟨w5, u5⟩ := q5; obtain ⟨w6, u6⟩ := q6
                          rw [hw1, hw2] at R4
                          simp only []
                          obtain ⟨hv4, hl4, hi4, hc4⟩ := R4
                          simp only [svcs_incIndent, svcs_emit] at hc4
                          have hstep := ctxRel_trans _ _ _ _ _ _ hc1 hc2
                          have hstep2 := ctxRel_trans _ _ _ _ _ _ hstep hc3
                          exact ⟨rfl, by simpa using hl4, by simpa using hi4,
                            ctxRel_trans _ _ _ _ _ _ hstep2 (by simpa using hc4)⟩
        · subst hi
          have hk := hsize; simp_arith at hk
          have hw : ((wfNode lv && wfNode rv) && wfOpt cond && wfOpt nx && wfNode stmt) = true := hwf
          simp only [Bool.and_eq_true] at hw
          obtain ⟨⟨⟨⟨hwlv, hwrv⟩, hwc⟩, hwnx⟩, hwstmt⟩ := hw
          rw [visit_for_badCond _ _ _ _ _ _ _ hc, visit_for_badCond _ _ _ _ _ _ _ hc]
          have R := ihV lv (by omega) hwlv s1 s2 hind hlines
          cases hx1 : visit lv s1 with
          | error e1 =>
            cases hx2 : visit lv s2 with
            | error e2 => rw [hx1, hx2] at R; exact R
            | ok p2 => rw [hx1, hx2] at R; exact R.elim
          | ok p1 =>
            cases hx2 : visit lv s2 with
            | error e2 => rw [hx1, hx2] at R; exact R.elim
            | ok p2 =>
              obtain ⟨v1, t1⟩ := p1; obtain ⟨v2, t2⟩ := p2
              rw [hx1, hx2] at R
              simp only []
              obtain ⟨hv, hl1, hi1, hc1⟩ := R
              subst hv
              have R2 := ihV rv (by omega) hwrv t1 t2 hi1 hl1
              cases hy1 : visit rv t1 with
              | error e1 =>
                cases hy2 : visit rv t2 with
                | error e2 => rw [hy1, hy2] at R2; exact R2
                | ok q2 => rw [hy1, hy2] at R2; exact R2.elim
              | ok q1 =>
                cases hy2 : visit rv t2 with
                | error e2 => rw [hy1, hy2] at R2; exact R2.elim
                | ok q2 =>
                  obtain ⟨w1, u1⟩ := q1; obtain ⟨w2, u2⟩ := q2
                  rw [hy1, hy2] at R2
                  simp only []
                  exact rfl
        · rw [visit_for_badInit _ _ _ _ _ hi, visit_for_badInit _ _ _ _ _ hi]
          exact rfl
      | ArrayRef name subscript =>
        have hk := hsize; simp_arith at hk
        have hw : (wfNode name && wfNode subscript) = true := hwf
        rw [Bool.and_eq_true] at hw
        obtain ⟨hw1, hw2⟩ := hw
        rw [visit_arrayRef, visit_arrayRef]
        have R := ihV name (by omega) hw1 s1 s2 hind hlines
        cases hx1 : visit name s1 with
        | error e1 =>
          cases hx2 : visit name s2 with
          | error e2 => rw [hx1, hx2] at R; exact R
          | ok p2 => rw [hx1, hx2] at R; exact R.elim
        | ok p1 =>
          cases hx2 : visit name s2 with
          | error e2 => rw [hx1, hx2] at R; exact R.elim
          | ok p2 =>
            obtain ⟨v1, t1⟩ := p1; obtain ⟨v2, t2⟩ := p2
            rw [hx1, hx2] at R
            simp only []
            obtain ⟨hv, hl1, hi1, hc1⟩ := R
            subst hv
            have R2 := ihV subscript (by omega) hw2 t1 t2 hi1 hl1
            cases hy1 : visit subscript t1 with
            | error e1 =>
              cases hy2 : visit subscript t2 with
              | error e2 => rw [hy1, hy2] at R2; exact R2
              | ok q2 => rw [hy1, hy2] at R2; exact R2.elim
            | ok q1 =>
              cases hy2 : visit subscript t2 with
              | error e2 => rw [hy1, hy2] at R2; exact R2.elim
              | ok q2 =>
                obtain ⟨w1, u1⟩ := q1; obtain ⟨w2, u2⟩ := q2
                rw [hy1, hy2] at R2
                simp only []
                obtain ⟨hv2, hl2, hi2, hc2⟩ := R2
                subst hv2
                exact ⟨rfl, hl2, hi2, ctxRel_trans _ _ _ _ _ _ hc1 hc2⟩
      | BinaryOp left op right =>
        have hk := hsize; simp_arith at hk
        have hw : (wfNode left && wfNode right) = true := hwf
        rw [Bool.and_eq_true] at hw
        obtain ⟨hw1, hw2⟩ := hw
        rw [visit_binaryOp, visit_binaryOp]
        have R := ihV left (by omega) hw1 s1 s2 hind hlines
        cases hx1 : visit left s1 with
        | error e1 =>
          cases hx2 : visit left s2 with
          | error e2 => rw [hx1, hx2] at R; exact R
          | ok p2 => rw [hx1, hx2] at R; exact R.elim
        | ok p1 =>
          cases hx2 : visit left s2 with
          | error e2 => rw [hx1, hx2] at R; exact R.elim
          | ok p2 =>
            obtain ⟨v1, t1⟩ := p1; obtain ⟨v2, t2⟩ := p2
            rw [hx1, hx2] at R
            simp only []
            obtain ⟨hv, hl1, hi1, hc1⟩ := R
            subst hv
            have R2 := ihV right (by omega) hw2 t1 t2 hi1 hl1
            cases hy1 : visit right t1 with
            | error e1 =>
              cases hy2 : visit right t2 with
              | error e2 => rw [hy1, hy2] at R2; exact R2
              | ok q2 => rw [hy1, hy2] at R2; exact R2.elim
            | ok q1 =>
              cases hy2 : visit right t2 with
              | error e2 => rw [hy1, hy2] at R2; exact R2.elim
              | ok q2 =>
                obtain ⟨w1, u1⟩ := q1; obtain ⟨w2, u2⟩ := q2
                rw [hy1, hy2] at R2
                simp only []
                obtain ⟨hv2, hl2, hi2, hc2⟩ := R2
                subst hv2
                exact ⟨rfl, hl2, hi2, ctxRel_trans _ _ _ _ _ _ hc1 hc2⟩
      | UnaryOp op expr =>
        have hk := hsize; simp_arith at hk
        have hw : wfNode expr = true := hwf
        rw [visit_unaryOp, visit_unaryOp]
        have R := ihV expr (by omega) hw s1 s2 hind hlines
        cases hx1 : visit expr s1 with
        | error e1 =>
          cases hx2 : visit expr s2 with
          | error e2 => rw [hx1, hx2] at R; exact R
          | ok p2 => rw [hx1, hx2] at R; exact R.elim
        | ok p1 =>
          cases hx2 : visit expr s2 with
          | error e2 => rw [hx1, hx2] at R; exact R.elim
          | ok p2 =>
            obtain ⟨v1, t1⟩ := p1; obtain ⟨v2, t2⟩ := p2
            rw [hx1, hx2] at R
            simp only []
            obtain ⟨hv, hl1, hi1, hc1⟩ := R
            subst hv
            exact ⟨rfl, hl1, hi1, hc1⟩
      | FuncCall name args =>
        rcases args with _ | exprs
        · have hk := hsize; simp_arith at hk
          have hw : (wfNode name && wfOptList OptNodeList.none) = true := hwf
          simp only [Bool.and_eq_true] at hw
          obtain ⟨hw1, -⟩ := hw
          rw [visit_funcCall_noArgs, visit_funcCall_noArgs]
          have R := ihV name (by omega) hw1 s1 s2 hind hlines
          cases hx1 : visit name s1 with
          | error e1 =>
            cases hx2 : visit name s2 with
            | error e2 => rw [hx1, hx2] at R; exact R
            | ok p2 => rw [hx1, hx2] at R; exact R.elim
          | ok p1 =>
            cases hx2 : visit name s2 with
            | error e2 => rw [hx1, hx2] at R; exact R.elim
            | ok p2 =>
              obtain ⟨v1, t1⟩ := p1; obtain ⟨v2, t2⟩ := p2
              rw [hx1, hx2] at R
              simp only []
              obtain ⟨hv, hl1, hi1, hc1⟩ := R
              subst hv
              by_cases hfn : v1 = Option.some "printf" <;>
                simp only [hfn, if_true, if_false, reduceIte] <;>
                exact ⟨rfl, hl1, hi1, hc1⟩
        · have hk := hsize; simp_arith at hk
          have hw : (wfNode name && wfList exprs) = true := hwf
          simp only [Bool.and_eq_true] at hw
          obtain ⟨hw1, hw2⟩ := hw
          rw [visit_funcCall_args, visit_funcCall_args]
          have R := ihV name (by omega) hw1 s1 s2 hind hlines
          cases hx1 : visit name s1 with
          | error e1 =>
            cases hx2 : visit name s2 with
            | error e2 => rw [hx1, hx2] at R; exact R
            | ok p2 => rw [hx1, hx2] at R; exact R.elim
          | ok p1 =>
            cases hx2 : visit name s2 with
            | error e2 => rw [hx1, hx2] at R; exact R.elim
            | ok p2 =>
              obtain ⟨v1, t1⟩ := p1; obtain ⟨v2, t2⟩ := p2
              rw [hx1, hx2] at R
              simp only []
              obtain ⟨hv, hl1, hi1, hc1⟩ := R
              subst hv
              have R2 := ihE exprs (by omega) hw2 t1 t2 hi1 hl1
              cases hy1 : visitExprList exprs t1 with
              | error e1 =>
                cases hy2 : visitExprList exprs t2 with
                | error e2 => rw [hy1, hy2] at R2; exact R2
                | ok q2 => rw [hy1, hy2] at R2; exact R2.elim
              | ok q1 =>
                cases hy2 : visitExprList exprs t2 with
                | error e2 => rw [hy1, hy2] at R2; exact R2.elim
                | ok q2 =>
                  obtain ⟨vs1, u1⟩ := q1; obtain ⟨vs2, u2⟩ := q2
                  rw [hy1, hy2] at R2
                  simp only []
                  obtain ⟨hvs, hl2, hi2, hc2⟩ := R2
                  subst hvs
                  have hctx := ctxRel_trans _ _ _ _ _ _ hc1 hc2
                  cases hall : allSome vs1 with
                  | none => exact rfl
                  | some ss =>
                    by_cases hfn : v1 = Option.some "printf" <;>
                      simp only [hfn, if_true, if_false, reduceIte] <;>
                      exact ⟨rfl, hl2, hi2, hctx⟩
    · -- visitTop
      intro l hsize hwf s1 s2 hind hlines
      cases l with
      | nil =>
        rw [visitTop_nil, visitTop_nil]
        exact ⟨hlines, hind, Or.inr ⟨rfl, rfl⟩⟩
      | cons n rest =>
        have hk := hsize; simp_arith at hk
        have hw : (wfNode n && wfList rest) = true := hwf
        rw [Bool.and_eq_true] at hw
        obtain ⟨hw1, hw2⟩ := hw
        rw [visitTop_cons, visitTop_cons]
        have R := ihV n (by omega) hw1 s1 s2 hind hlines
        cases hx1 : visit n s1 with
        | error e1 =>
          cases hx2 : visit n s2 with
          | error e2 => rw [hx1, hx2] at R; exact R
          | ok p2 => rw [hx1, hx2] at R; exact R.elim
        | ok p1 =>
          cases hx2 : visit n s2 with
          | error e2 => rw [hx1, hx2] at R; exact R.elim
          | ok p2 =>
            obtain ⟨v1, t1⟩ := p1; obtain ⟨v2, t2⟩ := p2
            rw [hx1, hx2] at R
            simp only []
            obtain ⟨hv, hl1, hi1, hc1⟩ := R
            have R2 := ihT rest (by omega) hw2 t1 t2 hi1 hl1
            cases hy1 : visitTop rest t1 with
            | error e1 =>
              cases hy2 : visitTop rest t2 with
              | error e2 => rw [hy1, hy2] at R2; exact R2
              | ok q2 => rw [hy1, hy2] at R2; exact R2.elim
            | ok q1 =>
              cases hy2 : visitTop rest t2 with
              | error e2 => rw [hy1, hy2] at R2; exact R2.elim
              | ok q2 =>
                rw [hy1, hy2] at R2
                obtain ⟨hl2, hi2, hc2⟩ := R2
                exact ⟨hl2, hi2, ctxRel_trans _ _ _ _ _ _ hc1 hc2⟩
    · -- visitStmts
      intro l hsize hwf s1 s2 hind hlines
      cases l with
      | nil =>
        rw [visitStmts_nil, visitStmts_nil]
        exact ⟨hlines, hind, Or.inr ⟨rfl, rfl⟩⟩
      | cons stm rest =>
        have hk := hsize; simp_arith at hk
        have hw : (wfNode stm && wfList rest) = true := hwf
        rw [Bool.and_eq_true] at hw
        obtain ⟨hw1, hw2⟩ := hw
        rw [visitStmts_cons, visitStmts_cons]
        have R := ihV stm (by omega) hw1 s1 s2 hind hlines
        cases hx1 : visit stm s1 with
        | error e1 =>
          cases hx2 : visit stm s2 with
          | error e2 => rw [hx1, hx2] at R; exact R
          | ok p2 => rw [hx1, hx2] at R; exact R.elim
        | ok p1 =>
          cases hx2 : visit stm s2 with
          | error e2 => rw [hx1, hx2] at R; exact R.elim
          | ok p2 =>
            obtain ⟨v1, t1⟩ := p1; obtain ⟨v2, t2⟩ := p2
            rw [hx1, hx2] at R
            simp only []
            obtain ⟨hv, hl1, hi1, hc1⟩ := R
            subst hv
            have R2 := ihS rest (by omega) hw2 (appendTruthy t1 v1) (appendTruthy t2 v1)
              (by rw [appendTruthy_indent_level, appendTruthy_indent_level, hi1])
              (appendTruthy_lines_congr t1 t2 v1 hl1 hi1)
            cases hy1 : visitStmts rest (appendTruthy t1 v1) with
            | error e1 =>
              cases hy2 : visitStmts rest (appendTruthy t2 v1) with
              | error e2 => rw [hy1, hy2] at R2; exact R2
              | ok q2 => rw [hy1, hy2] at R2; exact R2.elim
            | ok q1 =>
              cases hy2 : visitStmts rest (appendTruthy t2 v1) with
              | error e2 => rw [hy1, hy2] at R2; exact R2.elim
              | ok q2 =>
                rw [hy1, hy2] at R2
                obtain ⟨hl2, hi2, hc2⟩ := R2
                rw [svcs_appendTruthy, svcs_appendTruthy] at hc2
                exact ⟨hl2, hi2, ctxRel_trans _ _ _ _ _ _ hc1 hc2⟩
    · -- visitExprList
      intro l hsize hwf s1 s2 hind hlines
      cases l with
      | nil =>
        rw [visitExprList_nil, visitExprList_nil]
        exact ⟨rfl, hlines, hind, Or.inr ⟨rfl, rfl⟩⟩
      | cons e rest =>
        have hk := hsize; simp_arith at hk
        have hw : (wfNode e && wfList rest) = true := hwf
        rw [Bool.and_eq_true] at hw
        obtain ⟨hw1, hw2⟩ := hw
        rw [visitExprList_cons, visitExprList_cons]
        have R := ihV e (by omega) hw1 s1 s2 hind hlines
        cases hx1 : visit e s1 with
        | error e1 =>
          cases hx2 : visit e s2 with
          | error e2 => rw [hx1, hx2] at R; exact R
          | ok p2 => rw [hx1, hx2] at R; exact R.elim
        | ok p1 =>
          cases hx2 : visit e s2 with
          | error e2 => rw [hx1, hx2] at R; exact R.elim
          | ok p2 =>
            obtain ⟨v1, t1⟩ := p1; obtain ⟨v2, t2⟩ := p2
            rw [hx1, hx2] at R
            simp only []
            obtain ⟨hv, hl1, hi1, hc1⟩ := R
            subst hv
            have R2 := ihE rest (by omega) hw2 t1 t2 hi1 hl1
            cases hy1 : visitExprList rest t1 with
            | error e1 =>
              cases hy2 : visitExprList rest t2 with
              | error e2 => rw [hy1, hy2] at R2; exact R2
              | ok q2 => rw [hy1, hy2] at R2; exact R2.elim
            | ok q1 =>
              cases hy2 : visitExprList rest t2 with
              | error e2 => rw [hy1, hy2] at R2; exact R2.elim
              | ok q2 =>
                obtain ⟨vs1, u1⟩ := q1; obtain ⟨vs2, u2⟩ := q2
                rw [hy1, hy2] at R2
                simp only []
                obtain ⟨hvs, hl2, hi2, hc2⟩ := R2
                subst hvs
                exact ⟨rfl, hl2, hi2, ctxRel_trans _ _ _ _ _ _ hc1 hc2⟩
    · -- visitOpt
      intro o hsize hwf s1 s2 hind hlines
      cases o with
      | none =>
        rw [visitOpt_none, visitOpt_none]
        exact ⟨rfl, hlines, hind, Or.inr ⟨rfl, rfl⟩⟩
      | some e =>
        have hk := hsize; simp_arith at hk
        have hw : wfNode e = true := hwf
        rw [visitOpt_some, visitOpt_some]
        exact ihV e (by omega) hw s1 s2 hind hlines

/-- Corollary of `wfDet` for `visit`. -/
theorem visit_wfDet (n : Node) (hwf : wfNode n = true) (s1 s2 : St)
    (hind : s1.indent_level = s2.indent_level) (hlines : s1.lines = s2.lines) :
    RelV (visit n s1) (visit n s2) s1 s2 :=
  (wfDet (sizeOf n + 1)).1 n (Nat.lt_succ_self _) hwf s1 s2 hind hlines

/-! ## Properties of the preprocessing pass -/

theorem splitLinesCR_cons (c : Char) (rest acc : List Char) (b : Bool) :
    splitLinesCR (c :: rest) acc b =
      (if b && c = '\n' then splitLinesCR rest acc false
       else if c = '\r' then String.mk acc.reverse :: splitLinesCR rest [] true
       else if isLineBreak c then String.mk acc.reverse :: splitLinesCR rest [] false
       else splitLinesCR rest (c :: acc) false) := rfl

theorem splitLinesCR_nil (acc : List Char) (b : Bool) :
    splitLinesCR [] acc b = if acc = [] then [] else [String.mk acc.reverse] := rfl

theorem not_cr_of_not_break (c : Char) (h : isLineBreak c = false) : ¬(c = '\r') := by
  intro hh; subst hh; simp [isLineBreak] at h

/-- Every line produced by the splitter consists of non-line-break
characters (provided the pending accumulator does). -/
theorem splitLinesCR_noBreak : ∀ (cs acc : List Char) (b : Bool),
    (∀ c ∈ acc, isLineBreak c = false) →
    ∀ l ∈ splitLinesCR cs acc b, ∀ c ∈ l.data, isLineBreak c = false := by
  intro cs
  induction cs with
  | nil =>
    intro acc b hacc l hl c hc
    rw [splitLinesCR_nil] at hl
    by_cases ha : acc = []
    · simp [ha] at hl
    · simp [ha] at hl
      subst hl
      exact hacc c (by simpa using hc)
  | cons ch rest ih =>
    intro acc b hacc l hl c hc
    rw [splitLinesCR_cons] at hl
    by_cases h1 : b && ch = '\n'
    · rw [if_pos h1] at hl
      exact ih acc false hacc l hl c hc
    · rw [if_neg h1] at hl
      by_cases h2 : ch = '\r'
      · rw [if_pos h2] at hl
        rcases List.mem_cons.mp hl with hl | hl
        · subst hl
          exact hacc c (by simpa using hc)
        · exact ih [] true (by simp) l hl c hc
      · rw [if_neg h2] at hl
        by_cases h3 : isLineBreak ch = true
        · rw [if_pos h3] at hl
          rcases List.mem_cons.mp hl with hl | hl
          · subst hl
            exact hacc c (by simpa using hc)
          · exact ih [] false (by simp) l hl c hc
        · rw [if_neg h3] at hl
          refine ih (ch :: acc) false ?_ l hl c hc
          intro c2 hc2
          rcases List.mem_cons.mp hc2 with hc2 | hc2
          · subst hc2; simpa using h3
          · exact hacc c2 hc2

/-- Consuming a prefix of non-line-break characters just accumulates it. -/
theorem splitLinesCR_append (cs : List Char) : ∀ (acc tail : List Char),
    (∀ c ∈ cs, isLineBreak c = false) →
    splitLinesCR (cs ++ tail) acc false = splitLinesCR tail (cs.reverse ++ acc) false := by
  induction cs with
  | nil => intro acc tail h; simp
  | cons c rest ih =>
    intro acc tail h
    have hc : isLineBreak c = false := h c (List.mem_cons_self c rest)
    have hcr : ¬(c = '\r') := not_cr_of_not_break c hc
    rw [List.cons_append, splitLinesCR_cons]
    simp only [Bool.false_and, if_false, Bool.false_eq_true]
    rw [if_neg hcr, if_neg (by simp [hc]), ih (c :: acc) tail (fun x hx => h x (List.mem_cons_of_mem c hx))]
    simp

theorem string_mk_data (s : String) : String.mk s.data = s := rfl

theorem string_eq_empty_iff (s : String) : s = "" ↔ s.data = [] := by
  cases s
  simp [String.ext_iff]

theorem dropTrailingEmpty_cons_cons (l l2 : String) (rest : List String) :
    dropTrailingEmpty (l :: l2 :: rest) = l :: dropTrailingEmpty (l2 :: rest) := by
  unfold dropTrailingEmpty
  rw [List.getLast?_cons_cons]
  by_cases hlast : (l2 :: rest).getLast? = Option.some ""
  · rw [if_pos hlast, if_pos hlast, List.dropLast_cons₂]
  · rw [if_neg hlast, if_neg hlast]

/-- Splitting the `'\n'`-join of break-free lines recovers the lines, save
that one trailing empty line collapses into the trailing terminator. -/
theorem pySplitLines_joinNL : ∀ (ls : List String),
    (∀ l ∈ ls, ∀ c ∈ l.data, isLineBreak c = false) →
    pySplitLines (pyJoinNL ls) = dropTrailingEmpty ls := by
  intro ls
  induction ls with
  | nil => intro h; rfl
  | cons l rest ih =>
    intro h
    cases rest with
    | nil =>
      have hl : ∀ c ∈ l.data, isLineBreak c = false := h l (List.mem_cons_self l [])
      show pySplitLines l = dropTrailingEmpty [l]
      unfold pySplitLines
      rw [show l.data = l.data ++ [] from (List.append_nil _).symm, splitLinesCR_append l.data [] [] hl,
        splitLinesCR_nil]
      by_cases he : l = ""
      · subst he
        simp [dropTrailingEmpty]
      · have hd : ¬(l.data = []) := fun hh => he ((string_eq_empty_iff l).mpr hh)
        rw [if_neg (by simpa using hd)]
        have h2 : String.mk (l.data.reverse ++ []).reverse = l := by
          simp [string_mk_data]
        rw [h2]
        unfold dropTrailingEmpty
        have h3 : ([l] : List String).getLast? = Option.some l := rfl
        rw [h3]
        have h4 : ¬(Option.some l = Option.some "") := by
          intro hh
          exact he (Option.some.injEq l "" ▸ hh)
        rw [if_neg (by simpa using h4)]
    | cons l2 rest2 =>
      have hl : ∀ c ∈ l.data, isLineBreak c = false := h l (List.mem_cons_self l _)
      have hrest : ∀ x ∈ l2 :: rest2, ∀ c ∈ x.data, isLineBreak c = false :=
        fun x hx => h x (List.mem_cons_of_mem l hx)
      show pySplitLines (l ++ "\n" ++ pyJoinNL (l2 :: rest2)) = dropTrailingEmpty (l :: l2 :: rest2)
      unfold pySplitLines
      rw [String.data_append, String.data_append]
      have hnl : ("\n" : String).data = ['\n'] := rfl
      rw [hnl, List.append_assoc, List.singleton_append, splitLinesCR_append l.data [] _ hl]
      have hstep : splitLinesCR ('\n' :: (pyJoinNL (l2 :: rest2)).data) (l.data.reverse ++ []) false =
          String.mk (l.data.reverse ++ []).reverse :: splitLinesCR (pyJoinNL (l2 :: rest2)).data [] false := rfl
      rw [hstep]
      have ihr := ih hrest
      unfold pySplitLines at ihr
      rw [ihr, dropTrailingEmpty_cons_cons]
      simp [string_mk_data]

/-! # The claims

One section per analyzed claim of the specification. -/

theorem pyStr_none_eq : pyStr Option.none = "None" := rfl

theorem pyStr_some_eq (s : String) : pyStr (Option.some s) = s := rfl

/-- A successful statement loop only appends to the line buffer. -/
theorem visitStmts_lines_append (l : NodeList) (st st' : St)
    (h : visitStmts l st = .ok st') : ∃ d, st'.lines = st.lines ++ d := by
  have hp := visitStmts_prependL l (zeroL st) st.lines
  rw [← st_eq_prependL_zeroL, h] at hp
  cases hz : visitStmts l (zeroL st) with
  | error e => rw [hz] at hp; exact absurd hp (by simp)
  | ok t =>
    rw [hz] at hp
    simp only [addLSt_ok] at hp
    cases hp
    exact ⟨t.lines, rfl⟩

/-! ## C1: totality of `convert_c_to_python` -/

/-- C1 (counterexample): `convert_c_to_python` does not return a string for
every input.  On `void f() { for (;;) { } }` — which parses fine — the
visitor reads `node.init.lvalue` of a `For` node whose `init` is `None`,
raising an `AttributeError` that no caller catches; the modeled run ends in
`.error`, not `.ok`. -/
theorem claim1_counterexample :
    convert_c_to_python (fun _ => ParseResult.ok forEmptyAst)
      "void f() \x7b for (;;) \x7b \x7d \x7d" =
      .error "AttributeError: node.init has no attribute lvalue" := rfl

/-- C1 (amended): the totality holds only of the parse stage.  For every
input whose stripped text fails to parse, `convert_c_to_python` returns —
rather than raises — a pair of comment lines: the fixed parse-failure
notice and the parser's diagnostic message.  (For inputs that do parse, the
visitor itself may still raise, as `claim1_counterexample` shows.) -/
theorem claim1_parse_failure_text (parse : String → ParseResult) (c_code msg : String)
    (h : parse (stripDirectives c_code) = .err msg) :
    convert_c_to_python parse c_code =
      .ok ("# Error: Could not parse C code.\n# Details: " ++ msg) := by
  simp [convert_c_to_python, h]

/-- C1 witness: a parser stub that always fails, on a concrete input. -/
theorem claim1_parse_failure_text_witness :
    convert_c_to_python (fun _ => ParseResult.err "before: ;") "int x = ;" =
      .ok ("# Error: Could not parse C code.\n# Details: " ++ "before: ;") :=
  claim1_parse_failure_text (fun _ => ParseResult.err "before: ;") "int x = ;"
    "before: ;" rfl

/-! ## C2: indentation restoration -/

/-- C2: after any successful visit of any node — in particular each
block-bracketing construct — the indentation depth equals its value before
the visit, and (hence) stays non-negative whenever it started
non-negative; the statement quantifies over every node, so it covers
nesting of any depth. -/
theorem claim2_indent_restored (n : Node) (st : St) (r : Option String) (st' : St)
    (h : visit n st = .ok (r, st')) :
    st'.indent_level = st.indent_level ∧
      (0 ≤ st.indent_level → 0 ≤ st'.indent_level) := by
  have he := visit_indent_eq n st r st' h
  exact ⟨he, fun h0 => he ▸ h0⟩

/-- C2 witness: depth-3 nesting (function body ⊇ if ⊇ while ⊇ return),
run from the fresh state. -/
theorem claim2_indent_restored_witness :
    (⟨["def f():", "    if c:", "        while d:", "            return e"],
        0, Option.none, false⟩ : St).indent_level = initSt.indent_level ∧
      (0 ≤ initSt.indent_level →
        0 ≤ (⟨["def f():", "    if c:", "        while d:", "            return e"],
          0, Option.none, false⟩ : St).indent_level) :=
  claim2_indent_restored nestedDepth3 initSt Option.none
    ⟨["def f():", "    if c:", "        while d:", "            return e"],
      0, Option.none, false⟩ rfl

/-! ## C3: unrecognized constructs -/

/-- C3 (counterexample): a pointer declaration does NOT produce a comment
line naming its node kind.  `visit_Decl` falls through to `return ""` on a
`PtrDecl`, and the statement loop drops the falsy `""`: the translation of
`void f() { int *p; printf("x"); }` contains no comment line at all — no
line of the output contains a `#`. -/
theorem claim3_counterexample :
    visit ptrDeclAst initSt =
      .ok (Option.none, ⟨["def f():", "    print(\"x\")"], 0, Option.none, false⟩) ∧
    (["def f():", "    print(\"x\")"].all (fun l => !l.data.contains '#')) = true :=
  ⟨rfl, rfl⟩

/-- C3 (amended): the single-comment-line behavior belongs to
`generic_visit`, i.e. to node kinds with no `visit_*` method at all (a
pointer *declaration* is instead handled — and silently dropped — by
`visit_Decl`'s fallthrough).  For an unhandled node kind in statement
position, exactly one comment line naming the kind is emitted and the loop
continues with the siblings; no abort. -/
theorem claim3_amended :
    (∀ (kind : String) (st : St),
      visit (.Other kind) st =
        .ok (Option.some ("# [Unhandled: " ++ kind ++ "]"), st)) ∧
    (∀ (kind : String) (rest : NodeList) (st : St),
      visitStmts (.cons (.Other kind) rest) st =
        visitStmts rest (emit st (indent st ++ ("# [Unhandled: " ++ kind ++ "]")))) := by
  refine ⟨fun kind st => rfl, fun kind rest st => ?_⟩
  rw [visitStmts_cons, visit_other]
  simp only []
  have hne : ("# [Unhandled: " ++ kind ++ "]" : String) ≠ "" := by
    intro hcon
    have hd := congrArg String.data hcon
    simp [String.data_append] at hd
  simp [appendTruthy, hne]

/-! ## C4: the for-loop step clause is ignored -/

/-- C4: on a canonical for-loop the generator emits
`for <var> in range(<start>, <stop>):` and never reads the increment
clause: two loops differing only in that clause visit identically, and
concretely `for (i = 0; i < 10; i = i + 1)` and `... i = i + 2)` around
`printf(i)` both produce `for i in range(0, 10):` over `print(i)`. -/
theorem claim4_for_step_ignored :
    (∀ (op : String) (lv rv bl : Node) (bop : String) (r : Node)
       (nx1 nx2 : OptNode) (stmt : Node) (st : St),
      visit (.For (.some (.Assignment op lv rv)) (.some (.BinaryOp bl bop r)) nx1 stmt) st =
        visit (.For (.some (.Assignment op lv rv)) (.some (.BinaryOp bl bop r)) nx2 stmt) st) ∧
    visit (forStepAst stepByOne) initSt =
      .ok (Option.none,
        ⟨["for i in range(0, 10):", "    print(i)"], 0, Option.none, false⟩) ∧
    visit (forStepAst stepByTwo) initSt =
      .ok (Option.none,
        ⟨["for i in range(0, 10):", "    print(i)"], 0, Option.none, false⟩) := by
  refine ⟨fun op lv rv bl bop r nx1 nx2 stmt st => ?_, rfl, rfl⟩
  rw [visit_for_full, visit_for_full]

/-! ## C5: switch rendering -/

/-- C5: a case label seen while `case_seen` is still false emits
`if <discriminant> == <value>:`, one seen after emits
`elif <discriminant> == <value>:`, a default label emits `else:` (each
later line of the branch body following it), and the scenario
`switch(x) { case 1: printf("one"); default: printf("other"); }` — with no
`break` anywhere — produces `if x == 1:` / `    print("one")` / `else:` /
`    print("other")` under the equivalence comment. -/
theorem claim5_switch_rendering :
    (∀ (c : String) (stmts : NodeList) (st : St) (r : Option String) (st' : St),
      st.case_seen = false →
      visit (.Case (.Constant c) stmts) st = .ok (r, st') →
      ∃ d, st'.lines = st.lines ++
        ((indent st ++ "if" ++ " " ++ pyStr st.switch_var ++ " == " ++ c ++ ":") :: d)) ∧
    (∀ (c : String) (stmts : NodeList) (st : St) (r : Option String) (st' : St),
      st.case_seen = true →
      visit (.Case (.Constant c) stmts) st = .ok (r, st') →
      ∃ d, st'.lines = st.lines ++
        ((indent st ++ "elif" ++ " " ++ pyStr st.switch_var ++ " == " ++ c ++ ":") :: d)) ∧
    (∀ (stmts : NodeList) (st : St) (r : Option String) (st' : St),
      visit (.Default stmts) st = .ok (r, st') →
      ∃ d, st'.lines = st.lines ++ ((indent st ++ "else:") :: d)) ∧
    visit switchDemoAst initSt =
      .ok (Option.none,
        ⟨["# switch(x) equivalent", "if x == 1:", "    print(\"one\")",
          "else:", "    print(\"other\")"], 0, Option.none, true⟩) := by
  refine ⟨?_, ?_, ?_, rfl⟩
  · intro c stmts st r st' hcs h
    rw [visit_case, visit_constant] at h
    simp only [] at h
    rw [if_pos hcs] at h
    cases hv : visitStmts stmts (incIndent (setCaseSeen (emit st (indent st ++ "if" ++
        " " ++ pyStr st.switch_var ++ " == " ++ pyStr (Option.some c) ++ ":")))) with
    | error e => rw [hv] at h; exact absurd h (by simp)
    | ok st4 =>
      rw [hv] at h
      cases h
      obtain ⟨d, hd⟩ := visitStmts_lines_append _ _ _ hv
      refine ⟨d, ?_⟩
      simp [pyStr_some_eq] at hd
      simp [hd]
  · intro c stmts st r st' hcs h
    rw [visit_case, visit_constant] at h
    simp only [] at h
    rw [if_neg (by simp [hcs])] at h
    cases hv : visitStmts stmts (incIndent (setCaseSeen (emit st (indent st ++ "elif" ++
        " " ++ pyStr st.switch_var ++ " == " ++ pyStr (Option.some c) ++ ":")))) with
    | error e => rw [hv] at h; exact absurd h (by simp)
    | ok st4 =>
      rw [hv] at h
      cases h
      obtain ⟨d, hd⟩ := visitStmts_lines_append _ _ _ hv
      refine ⟨d, ?_⟩
      simp [pyStr_some_eq] at hd
      simp [hd]
  · intro stmts st r st' h
    rw [visit_default] at h
    cases hv : visitStmts stmts (incIndent (emit st (indent st ++ "else:"))) with
    | error e => rw [hv] at h; exact absurd h (by simp)
    | ok st2 =>
      rw [hv] at h
      cases h
      obtain ⟨d, hd⟩ := visitStmts_lines_append _ _ _ hv
      refine ⟨d, ?_⟩
      simp at hd
      simp [hd]

/-- C5 witness: the first-case conjunct at a concrete case label visited
from the fresh state (where no switch has set a discriminant, hence the
rendered discriminant text `None`). -/
theorem claim5_switch_rendering_witness :
    initSt.case_seen = false ∧
    ∃ d, (⟨["if None == 1:"], 0, Option.none, true⟩ : St).lines =
      initSt.lines ++
        ((indent initSt ++ "if" ++ " " ++ pyStr initSt.switch_var ++ " == " ++ "1" ++ ":") :: d) :=
  ⟨rfl, claim5_switch_rendering.1 "1" .nil initSt Option.none
    ⟨["if None == 1:"], 0, Option.none, true⟩ rfl rfl⟩

/-! ## C6: the preprocessing pass -/

/-- C6 (counterexample): the pass does not preserve the original newlines.
Joining with `'\n'` after `splitlines` drops a trailing newline and
rewrites a `"\r\n"` boundary to `"\n"`, so even hash-free inputs come back
changed. -/
theorem claim6_counterexample :
    stripDirectives "int x;\n" = "int x;" ∧
    ("int x;" : String) ≠ "int x;\n" ∧
    stripDirectives "a\r\nb" = "a\nb" ∧
    ("a\nb" : String) ≠ "a\r\nb" :=
  ⟨rfl, by decide, rfl, by decide⟩

/-- C6 (amended): the pass keeps exactly the lines whose stripped form does
not start with `#`, in order — up to line-terminator normalization: split
into lines, the output is the filtered input lines (with a trailing empty
line dropped); and the scenario line `#include <stdio.h>` is removed
before parsing. -/
theorem claim6_amended :
    (∀ s : String, pySplitLines (stripDirectives s) =
      dropTrailingEmpty ((pySplitLines s).filter keepLine)) ∧
    stripDirectives "#include <stdio.h>\nint main() \x7b return 0; \x7d" =
      "int main() \x7b return 0; \x7d" := by
  refine ⟨fun s => ?_, rfl⟩
  apply pySplitLines_joinNL
  intro l hl
  exact splitLinesCR_noBreak s.data [] false (by intro c hc; cases hc) l
    (List.mem_of_mem_filter hl)

/-! ## C7: function definitions -/

/-- C7: the scenario `int add(a, b) { return a + b; }` translates to
exactly `def add(a, b):\n    return a + b`; in general a function
definition emits `def <name>(<args>):` at the current indentation with the
body lines following it, and an absent parameter list renders as the empty
string. -/
theorem claim7_funcdef :
    convert_c_to_python parseAddStub "int add(a, b) \x7b return a + b; \x7d" =
      .ok "def add(a, b):\n    return a + b" ∧
    (∀ (name : String) (params : Option (List String)) (body : Node) (st : St)
       (r : Option String) (st' : St),
      visit (.FuncDef name params body) st = .ok (r, st') →
      ∃ d, st'.lines = st.lines ++
        ((indent st ++ "def " ++ name ++ "(" ++ get_func_args params ++ "):") :: d)) ∧
    get_func_args Option.none = "" := by
  refine ⟨rfl, ?_, rfl⟩
  intro name params body st r st' h
  rw [visit_funcDef] at h
  cases hv : visit body (incIndent (emit st
      (indent st ++ "def " ++ name ++ "(" ++ get_func_args params ++ "):"))) with
  | error e => rw [hv] at h; exact absurd h (by simp)
  | ok p =>
    obtain ⟨v, st3⟩ := p
    rw [hv] at h
    cases h
    obtain ⟨d, hd, _⟩ := visit_lines_append body _ v st3 hv
    refine ⟨d, ?_⟩
    simp at hd
    simp [hd]

/-- C7 witness: the header-line conjunct at a function with no declared
parameters and an empty body. -/
theorem claim7_funcdef_witness :
    ∃ d, (⟨["def f():"], 0, Option.none, false⟩ : St).lines =
      initSt.lines ++
        ((indent initSt ++ "def " ++ "f" ++ "(" ++ get_func_args Option.none ++ "):") :: d) :=
  claim7_funcdef.2.1 "f" Option.none (.Compound .nil) initSt Option.none
    ⟨["def f():"], 0, Option.none, false⟩ rfl

/-! ## C8: reordering independent top-level function definitions -/

/-- C8 (counterexample): swapping two top-level definitions can change a
block's internal content, because `case_seen` is never reset between
functions: `void f() { switch(x) { case 1: return 0; } }` leaves
`case_seen` true, so the stray case label in `void g() { case 2: return 1; }`
renders as `elif None == 2:` when `g` follows `f` but as `if None == 2:`
when `g` comes first. -/
theorem claim8_counterexample :
    visit (.FileAST (.cons leakF (.cons leakG .nil))) initSt =
      .ok (Option.none,
        ⟨["def f():", "    # switch(x) equivalent", "    if x == 1:", "        return 0",
          "def g():", "    elif None == 2:", "        return 1"], 0, Option.none, true⟩) ∧
    visit (.FileAST (.cons leakG (.cons leakF .nil))) initSt =
      .ok (Option.none,
        ⟨["def g():", "    if None == 2:", "        return 1",
          "def f():", "    # switch(x) equivalent", "    if x == 1:", "        return 0"],
          0, Option.none, true⟩) ∧
    "    elif None == 2:" ∈
      ["def f():", "    # switch(x) equivalent", "    if x == 1:", "        return 0",
        "def g():", "    elif None == 2:", "        return 1"] ∧
    "    elif None == 2:" ∉
      ["def g():", "    if None == 2:", "        return 1",
        "def f():", "    # switch(x) equivalent", "    if x == 1:", "        return 0"] :=
  ⟨rfl, rfl, by decide, by decide⟩

/-- A two-element file visit concatenates the blocks the two nodes produce
from the fresh state (for a second node that is switch-well-formed, hence
insensitive to the per-switch context the first may leak). -/
theorem fileTwo_lines (f g : Node) (rf rg : Option String) (stf stg : St)
    (hwg : wfNode g = true)
    (hf : visit f initSt = .ok (rf, stf)) (hg : visit g initSt = .ok (rg, stg)) :
    ∃ st12, visit (.FileAST (.cons f (.cons g .nil))) initSt = .ok (Option.none, st12) ∧
      st12.lines = stf.lines ++ stg.lines := by
  have hindf : stf.indent_level = initSt.indent_level := visit_indent_eq f initSt rf stf hf
  have hsplit : visit g stf = addL stf.lines (visit g (zeroL stf)) := by
    conv_lhs => rw [st_eq_prependL_zeroL stf]
    exact visit_prependL g (zeroL stf) stf.lines
  have R := visit_wfDet g hwg (zeroL stf) initSt (by simpa using hindf) rfl
  rw [hg] at R
  cases hz : visit g (zeroL stf) with
  | error e => rw [hz] at R; simp [RelV] at R
  | ok p =>
    obtain ⟨v2, t⟩ := p
    rw [hz] at R
    simp only [RelV] at R
    obtain ⟨hv2, hlt, hit, hctx⟩ := R
    have hTop : visitTop (.cons f (.cons g .nil)) initSt = .ok (prependL stf.lines t) := by
      rw [visitTop_cons, hf]
      simp only []
      rw [visitTop_cons, hsplit, hz]
      simp only [addL_ok]
      rw [visitTop_nil]
    refine ⟨prependL stf.lines t, ?_, by simp [hlt]⟩
    rw [visit_fileAST, hTop]

/-- C8 (amended): for switch-well-formed top-level nodes (no stray case or
default label outside a switch — the one channel through which state leaks
between functions), both orders succeed and each order's output is the
concatenation, in that order, of the blocks the two nodes produce in
isolation; so swapping the nodes swaps the blocks and leaves their content
unchanged. -/
theorem claim8_amended (f g : Node) (rf rg : Option String) (stf stg : St)
    (hwF : wfNode f = true) (hwG : wfNode g = true)
    (hf : visit f initSt = .ok (rf, stf)) (hg : visit g initSt = .ok (rg, stg)) :
    ∃ st12 st21,
      visit (.FileAST (.cons f (.cons g .nil))) initSt = .ok (Option.none, st12) ∧
      visit (.FileAST (.cons g (.cons f .nil))) initSt = .ok (Option.none, st21) ∧
      st12.lines = stf.lines ++ stg.lines ∧ st21.lines = stg.lines ++ stf.lines := by
  obtain ⟨st12, h12, hl12⟩ := fileTwo_lines f g rf rg stf stg hwG hf hg
  obtain ⟨st21, h21, hl21⟩ := fileTwo_lines g f rg rf stg stf hwF hg hf
  exact ⟨st12, st21, h12, h21, hl12, hl21⟩

/-- C8 witness: two plain function definitions, in both orders. -/
theorem claim8_amended_witness :
    ∃ st12 st21,
      visit (.FileAST (.cons plainF (.cons plainG .nil))) initSt = .ok (Option.none, st12) ∧
      visit (.FileAST (.cons plainG (.cons plainF .nil))) initSt = .ok (Option.none, st21) ∧
      st12.lines = ["def f():", "    return 0"] ++ ["def g(a):", "    return a"] ∧
      st21.lines = ["def g(a):", "    return a"] ++ ["def f():", "    return 0"] :=
  claim8_amended plainF plainG Option.none Option.none
    ⟨["def f():", "    return 0"], 0, Option.none, false⟩
    ⟨["def g(a):", "    return a"], 0, Option.none, false⟩
    rfl rfl rfl rfl

/-! ## C9: unary operations -/

/-- C9: a unary operation renders as the operator text immediately followed
by the operand's rendered text, with no spacing and no case distinction on
the operator — so the postfix operators (which `pycparser` spells `p++`,
`p--`) go through the same operator-first rule as the prefix ones. -/
theorem claim9_unaryOp :
    (∀ (op : String) (e : Node) (st : St) (s : String) (st1 : St),
      visit e st = .ok (Option.some s, st1) →
      visit (.UnaryOp op e) st = .ok (Option.some (op ++ s), st1)) ∧
    (∀ st : St, visit (.UnaryOp "++" (.ID "x")) st = .ok (Option.some "++x", st)) ∧
    (∀ st : St, visit (.UnaryOp "p++" (.ID "x")) st = .ok (Option.some "p++x", st)) := by
  refine ⟨?_, fun st => rfl, fun st => rfl⟩
  intro op e st s st1 h
  rw [visit_unaryOp, h]
  rfl

/-- C9 witness: negation of a constant. -/
theorem claim9_unaryOp_witness :
    visit (.UnaryOp "-" (.Constant "5")) initSt = .ok (Option.some ("-" ++ "5"), initSt) :=
  claim9_unaryOp.1 "-" (.Constant "5") initSt "5" initSt rfl

/-! ## C10: the per-switch context after a switch -/

/-- C10: every successful switch visit ends with `switch_var` set to `None`
(not restored to its entry value), while `case_seen` keeps whatever the
cases left; concretely, in a switch nested inside a case of an enclosing
switch, the enclosing switch's later case renders as `elif None == 3:` —
the `elif` from the leaked `case_seen`, the `None` from the cleared
discriminant. -/
theorem claim10_switch_ctx :
    (∀ (cond stmt : Node) (st : St) (r : Option String) (st' : St),
      visit (.Switch cond stmt) st = .ok (r, st') → st'.switch_var = Option.none) ∧
    visit nestedSwitchAst initSt =
      .ok (Option.none,
        ⟨["# switch(x) equivalent", "if x == 1:", "    # switch(y) equivalent",
          "    if y == 2:", "        print(\"a\")", "elif None == 3:", "    print(\"b\")"],
          0, Option.none, true⟩) := by
  refine ⟨?_, rfl⟩
  intro cond stmt st r st' h
  rw [visit_switch] at h
  cases hc : visit cond st with
  | error e => rw [hc] at h; exact absurd h (by simp)
  | ok p =>
    obtain ⟨v, st1⟩ := p
    rw [hc] at h
    simp only [] at h
    cases hb : visit stmt (setSwitchCtx
        (emit st1 (indent st1 ++ "# switch(" ++ pyStr v ++ ") equivalent")) v) with
    | error e => rw [hb] at h; exact absurd h (by simp)
    | ok q =>
      obtain ⟨w, st4⟩ := q
      rw [hb] at h
      cases h
      rfl

/-- C10 witness: the concrete one-level switch. -/
theorem claim10_switch_ctx_witness :
    (⟨["# switch(x) equivalent", "if x == 1:", "    print(\"one\")",
        "else:", "    print(\"other\")"], 0, Option.none, true⟩ : St).switch_var =
      Option.none :=
  claim10_switch_ctx.1 (.ID "x") switchDemoBody initSt Option.none
    ⟨["# switch(x) equivalent", "if x == 1:", "    print(\"one\")",
        "else:", "    print(\"other\")"], 0, Option.none, true⟩ rfl
